import Mathlib

/-!
Verification of the PSLG splitting / ear-attack triangulation core of
src/uniformity/src/main.c.

Shallow embedding conventions:
* C float arithmetic is idealized as exact rational arithmetic (ℚ).
  Every concrete input used in a theorem below has coordinates and
  intermediate values that are exactly representable in binary32, so the
  idealization agrees with the C code on those inputs.
* magnitude_vec3 uses sqrt, which does not exist on ℚ; the only consumer
  in the verified core is equal_vec3 (dist < EPSILON with dist ≥ 0), which
  is equivalent to dist² < EPSILON², so equal_vec3 is defined through the
  squared distance.
* Heap allocation may fail in C.  Each operation of the embedding threads
  an allocation oracle (a list of Bools); every malloc/realloc the C code
  performs consumes one entry, and an empty oracle means the allocation
  succeeds.  Reallocation is attempted exactly when the C macro REALIGN
  fires, as in the source.
* Arrays with separate count fields are modelled as lists holding the live
  prefix; the one place where the C code leaves the backing array shifted
  without adjusting the count (the realloc-failure path of
  dedup_pslg_a_vertex and dedup_pslg_a_edge) is modelled explicitly by a
  full-length shifted list whose last entry is duplicated.
-/

namespace Uniformity

/- Batteries marks the Rat field operations irreducible, which prevents
kernel evaluation of concrete rational arithmetic; this development
evaluates the embedded geometry on concrete inputs, so restore
reducibility locally. -/
attribute [local semireducible] Rat.add Rat.sub Rat.mul Rat.inv

/-- Vec3: three coordinates (C: three 32-bit floats, idealized as ℚ). -/
structure Vec3 where
  x : ℚ
  y : ℚ
  z : ℚ
deriving DecidableEq, Repr

instance : Inhabited Vec3 := ⟨⟨0, 0, 0⟩⟩

/-- C: #define EPSILON 0.000001 -/
def EPSILON : ℚ := 1 / 1000000

/-- C: add_vec3. -/
def add_vec3 (a b : Vec3) : Vec3 :=
  ⟨a.x + b.x, a.y + b.y, a.z + b.z⟩

/-- C: multiply_vec3. -/
def multiply_vec3 (a : Vec3) (scalar : ℚ) : Vec3 :=
  ⟨a.x * scalar, a.y * scalar, a.z * scalar⟩

/-- C: subtract_vec3, defined as add_vec3(a, multiply_vec3(b, -1)). -/
def subtract_vec3 (a b : Vec3) : Vec3 :=
  add_vec3 a (multiply_vec3 b (-1))

/-- C: lerp_vec3(a, b, t) = a + (b - a)·t. -/
def lerp_vec3 (a b : Vec3) (t : ℚ) : Vec3 :=
  add_vec3 a (multiply_vec3 (subtract_vec3 b a) t)

/-- Squared magnitude; magnitude_vec3 is its square root. -/
def magnitude_sq_vec3 (a : Vec3) : ℚ := a.x * a.x + a.y * a.y + a.z * a.z

/-- Squared distance between two points. -/
def dist_sq_vec3 (a b : Vec3) : ℚ := magnitude_sq_vec3 (subtract_vec3 a b)

/-- C: equal_vec3(a,b) = fabs(dist(a,b)) < EPSILON.  Since the distance is
nonnegative this is equivalent to dist² < EPSILON², which is how it is
decided here (ℚ has no square root). -/
def equal_vec3 (a b : Vec3) : Bool :=
  decide (dist_sq_vec3 a b < EPSILON * EPSILON)

/-- C: intersecting_segments.  Returns some p when the C function returns 1
and writes p to *out; none when it returns 0.  The branch structure follows
the source line by line; note the source line 1831
(denomy = b.x - a.y) in the branch where segment [c,d] is a point. -/
def intersecting_segments (a b c d : Vec3) : Option Vec3 :=
  if |a.x - b.x| < EPSILON ∧ |a.y - b.y| < EPSILON ∧
      |c.x - d.x| < EPSILON ∧ |c.y - d.y| < EPSILON then
    none
  else if |a.x - b.x| < EPSILON ∧ |a.y - b.y| < EPSILON then
    -- vertical = 1: segment [a,b] is a point, project onto [c,d]
    let tx0 := a.x - c.x
    let ty0 := a.y - c.y
    let denomx := d.x - c.x
    let denomy := d.y - c.y
    if |denomx| < EPSILON then none
    else if |denomy| < EPSILON then none
    else
      let tx := tx0 / denomx
      let ty := ty0 / denomy
      if tx < 0 ∨ tx > 1 then none
      else if ty < 0 ∨ ty > 1 then none
      else if |tx - ty| < EPSILON then some (lerp_vec3 c d ((tx + ty) / 2))
      else none
  else if |c.x - d.x| < EPSILON ∧ |c.y - d.y| < EPSILON then
    -- vertical = 2: segment [c,d] is a point, project onto [a,b]
    let tx0 := c.x - a.x
    let ty0 := c.y - a.y
    let denomx := b.x - a.x
    let denomy := b.x - a.y -- faithfully b.x - a.y, exactly as in the source
    if |denomx| < EPSILON then none
    else if |denomy| < EPSILON then none
    else
      let tx := tx0 / denomx
      let ty := ty0 / denomy
      if tx < 0 ∨ tx > 1 then none
      else if ty < 0 ∨ ty > 1 then none
      else if |tx - ty| < EPSILON then some (lerp_vec3 a b ((tx + ty) / 2))
      else none
  else
    let denom := (a.x - b.x) * (c.y - d.y) - (a.y - b.y) * (c.x - d.x)
    if |denom| < EPSILON then none
    else
      let t := ((a.x - c.x) * (c.y - d.y) - (a.y - c.y) * (c.x - d.x)) / denom
      let u := -((a.x - b.x) * (a.y - c.y) - (a.y - b.y) * (a.x - c.x)) / denom
      if t < 0 ∨ t > 1 then none
      else if u < 0 ∨ u > 1 then none
      else
        let v1 := lerp_vec3 a b t
        let v2 := lerp_vec3 c d u
        if |v1.z - v2.z| < EPSILON then some (lerp_vec3 v1 v2 (1 / 2))
        else none

/-- FaceData: packed RGBA color (uint32, modelled as ℕ) and a unit normal. -/
structure FaceData where
  color : ℕ
  normal : Vec3
deriving DecidableEq, Repr

/-- TriangleRaw: three resolved vertex coordinates plus a FaceData. -/
structure TriangleRaw where
  vertices : Vec3 × Vec3 × Vec3
  fd : FaceData
deriving DecidableEq, Repr

/-- PolygonRaw: the boundary cycle in input order plus a FaceData. -/
structure PolygonRaw where
  vertices : List Vec3
  fd : FaceData
deriving DecidableEq, Repr

/-- PSLG: mutable vertex sequence, edge list of index pairs, original
polygon.  vertex_count / edge_count are the list lengths. -/
structure PSLG where
  vertices : List Vec3
  edges : List (ℕ × ℕ)
  poly : PolygonRaw
deriving DecidableEq, Repr

/-- Triangulation: ordered sequence of TriangleRaw (append-only). -/
abbrev Triangulation := List TriangleRaw

/-! ### Status codes and storage policy -/

/-- C: #define SUCCESS 0x00 -/
def SUCCESS : ℕ := 0x00

/-- C: #define NOOP 0x01 -/
def NOOP : ℕ := 0x01

/-- C: STATUS_TYPE(code) = (code & 0xFF000000) >> 24 on uint32. -/
def STATUS_TYPE (code : ℕ) : ℕ := code % 2 ^ 32 / 2 ^ 24

/-- C: IS_AN_ERROR(x): status type is FATAL (3) or NONFATAL (2). -/
def IS_AN_ERROR (x : ℕ) : Bool :=
  decide (STATUS_TYPE x = 3) || decide (STATUS_TYPE x = 2)

def ADDING_TRI_REALLOC_FAILURE : ℕ := 0x03000002
def PSLG_EDGE_SPLIT_VERTEX_REALLOC_ERROR : ℕ := 0x03000006
def PSLG_EDGE_SPLIT_EDGE_REALLOC_ERROR : ℕ := 0x03000007
def PSLG_ATTACK_TEMP_EDGES_MALLOC_ERROR : ℕ := 0x03000009
def PSLG_ATTACK_EDGE_REALLOCATION_ERROR : ℕ := 0x0300000a
def DEDUP_PSLG_VERTEX_REALLOC_ERROR : ℕ := 0x03000016
def DEDUP_PSLG_EDGES_REALLOC_ERROR : ℕ := 0x03000017

/-- C: BIT_ALIGN(x) = max((x + 15) & ~15, 1) with BIT_IGNORE = 4.  Masking
the low four bits of a nonnegative number rounds down to a multiple of 16,
so (x+15) & ~15 = 16 * ((x+15) / 16). -/
def BIT_ALIGN (x : ℕ) : ℕ := max (16 * ((x + 15) / 16)) 1

/-- C: REALIGN(a,b) = BIT_ALIGN(a) != BIT_ALIGN(b). -/
def REALIGN (a b : ℕ) : Bool := decide (BIT_ALIGN a ≠ BIT_ALIGN b)

/-- Allocation oracle: one Bool per malloc/realloc the C code performs.
An exhausted oracle means the allocation succeeds. -/
abbrev Oracle := List Bool

/-- Consume one allocation event from the oracle. -/
def allocOk : Oracle → Bool × Oracle
  | [] => (true, [])
  | b :: rest => (b, rest)

/-- The C pattern `if (REALIGN(...)) { q = realloc(...); if (!q) fail; }`:
when `need` holds a reallocation is attempted (consuming one oracle entry),
otherwise nothing happens and the step trivially succeeds. -/
def tryRealloc (need : Bool) (o : Oracle) : Bool × Oracle :=
  if need then allocOk o else (true, o)

/-! ### Triangulation store -/

/-- C: add_triangle.  The tri == NULL branch (TRI_NOT_FOUND) is
unrepresentable in the embedding, where a Triangulation is a value.
Realloc fires exactly when REALIGN(count, count+1) does. -/
def add_triangle (o : Oracle) (tri : Triangulation) (triangle : TriangleRaw) :
    ℕ × Triangulation × Oracle :=
  match tryRealloc (REALIGN tri.length (tri.length + 1)) o with
  | (false, o1) => (ADDING_TRI_REALLOC_FAILURE, tri, o1)
  | (true, o1) => (SUCCESS, tri ++ [triangle], o1)

/-! ### PSLG store: split -/

/-- C: splitPSLG.  E1/E2 are read before any mutation, so the appended
edges (v₁,w) and (v₂,w) use the original second endpoints, exactly as the
source does (it appends at edge_count and edge_count+1 before overwriting
edges[edge1][1] and edges[edge2][1]). -/
def splitPSLG (o : Oracle) (p : PSLG) (edge1 edge2 : ℕ) : ℕ × PSLG × Oracle :=
  let E1 := p.edges.getD edge1 (0, 0)
  let E2 := p.edges.getD edge2 (0, 0)
  if E1.1 = E2.1 ∨ E1.1 = E2.2 ∨ E1.2 = E2.1 ∨ E1.2 = E2.2 then (NOOP, p, o)
  else
    match intersecting_segments (p.vertices.getD E1.1 default)
        (p.vertices.getD E1.2 default) (p.vertices.getD E2.1 default)
        (p.vertices.getD E2.2 default) with
    | none => (NOOP, p, o)
    | some out =>
      let n := p.vertices.length
      let m := p.edges.length
      match tryRealloc (REALIGN n (n + 1)) o with
      | (false, o1) => (PSLG_EDGE_SPLIT_VERTEX_REALLOC_ERROR, p, o1)
      | (true, o1) =>
        match tryRealloc (REALIGN m (m + 2)) o1 with
        | (false, o2) => (PSLG_EDGE_SPLIT_EDGE_REALLOC_ERROR, p, o2)
        | (true, o2) =>
          (SUCCESS,
            { p with
              vertices := p.vertices ++ [out]
              edges := ((p.edges.set edge1 (E1.1, n)).set edge2 (E2.1, n)) ++
                [(E1.2, n), (E2.2, n)] },
            o2)

/-! ### PSLG store: dedup -/

/-- Endpoint rewrite used by dedup_pslg_a_vertex: an endpoint equal to v2
becomes v1, an endpoint greater than v2 is decremented (the two ifs of the
C loop body act on the same slot in sequence; when the slot was v2 the new
value v1 < v2 never triggers the second if). -/
def shift_endpoint (v1 v2 u : ℕ) : ℕ :=
  if u = v2 then v1 else if v2 < u then u - 1 else u

/-- C: dedup_pslg_a_vertex.  The C code shifts the vertex array down before
attempting the shrinking realloc; on realloc failure it returns with the
array shifted but vertex_count and the edges untouched, which is modelled
by the full-length list take v2 ++ drop (v2+1) ++ [last]. -/
def dedup_pslg_a_vertex (o : Oracle) (p : PSLG) (v1 v2 : ℕ) :
    ℕ × PSLG × Oracle :=
  if v1 = v2 then (NOOP, p, o)
  else if v2 < v1 then (NOOP, p, o)
  else if equal_vec3 (p.vertices.getD v1 default) (p.vertices.getD v2 default)
      = false then (NOOP, p, o)
  else
    let n := p.vertices.length
    match tryRealloc (REALIGN n (n - 1)) o with
    | (false, o1) =>
      (DEDUP_PSLG_VERTEX_REALLOC_ERROR,
        { p with vertices := p.vertices.take v2 ++ p.vertices.drop (v2 + 1)
            ++ [p.vertices.getLastD default] }, o1)
    | (true, o1) =>
      (SUCCESS,
        { p with
          vertices := p.vertices.take v2 ++ p.vertices.drop (v2 + 1)
          edges := p.edges.map fun e =>
            (shift_endpoint v1 v2 e.1, shift_endpoint v1 v2 e.2) }, o1)

/-- The duplicate test of dedup_pslg_a_edge: the two edges connect the same
unordered pair of vertex positions (positions compared with equal_vec3). -/
def dup_edge_test (vs : List Vec3) (E1 E2 : ℕ × ℕ) : Bool :=
  (equal_vec3 (vs.getD E1.1 default) (vs.getD E2.1 default) &&
    equal_vec3 (vs.getD E1.2 default) (vs.getD E2.2 default)) ||
  (equal_vec3 (vs.getD E1.1 default) (vs.getD E2.2 default) &&
    equal_vec3 (vs.getD E1.2 default) (vs.getD E2.1 default))

/-- C: dedup_pslg_a_edge.  Same shift-then-realloc pattern as the vertex
version: on realloc failure the edge array is left shifted (last entry
duplicated) with edge_count untouched. -/
def dedup_pslg_a_edge (o : Oracle) (p : PSLG) (e1 e2 : ℕ) :
    ℕ × PSLG × Oracle :=
  if e2 < e1 then (NOOP, p, o)
  else if e1 = e2 then (NOOP, p, o)
  else if dup_edge_test p.vertices (p.edges.getD e1 (0, 0))
      (p.edges.getD e2 (0, 0)) = false then (NOOP, p, o)
  else
    let m := p.edges.length
    match tryRealloc (REALIGN m (m - 1)) o with
    | (false, o1) =>
      (DEDUP_PSLG_EDGES_REALLOC_ERROR,
        { p with edges := p.edges.take e2 ++ p.edges.drop (e2 + 1)
            ++ [p.edges.getLastD (0, 0)] }, o1)
    | (true, o1) =>
      (SUCCESS,
        { p with edges := p.edges.take e2 ++ p.edges.drop (e2 + 1) }, o1)

/-- The doubly nested first-hit scan shared by dedup_pslg_one_vertex,
dedup_pslg_one_edge and remove_single_edge: run f on each index pair in
order; return the first non-NOOP result, or NOOP with the state unchanged.
(The C loops re-read the counts each iteration, but the state is only
mutated by the final, returning call, so enumerating the pairs up front is
equivalent.) -/
def scanPairs (f : Oracle → PSLG → ℕ → ℕ → ℕ × PSLG × Oracle) :
    Oracle → PSLG → List (ℕ × ℕ) → ℕ × PSLG × Oracle
  | o, p, [] => (NOOP, p, o)
  | o, p, ij :: rest =>
    let r := f o p ij.1 ij.2
    if r.1 = NOOP then scanPairs f r.2.2 r.2.1 rest else r

/-- The C scan order: i outer, j inner, both over range n. -/
def squarePairs (n : ℕ) : List (ℕ × ℕ) :=
  (List.range n).flatMap fun i => (List.range n).map fun j => (i, j)

/-- C: dedup_pslg_one_vertex. -/
def dedup_pslg_one_vertex (o : Oracle) (p : PSLG) : ℕ × PSLG × Oracle :=
  scanPairs dedup_pslg_a_vertex o p (squarePairs p.vertices.length)

/-- The fixpoint loop of dedup_pslg_vertex, with structural fuel.  Every
iteration that neither exits with NOOP nor with an error removes one
vertex, so vertex_count + 1 fuel (supplied by dedup_pslg_vertex) always
suffices and the 0-fuel branch is unreachable from it. -/
def dedup_vertex_loop : ℕ → Oracle → PSLG → ℕ × PSLG × Oracle
  | 0, o, p => (NOOP, p, o)
  | fuel + 1, o, p =>
    let r := dedup_pslg_one_vertex o p
    if r.1 = NOOP then r
    else if IS_AN_ERROR r.1 then r
    else dedup_vertex_loop fuel r.2.2 r.2.1

/-- C: dedup_pslg_vertex (vertex dedup to fixpoint). -/
def dedup_pslg_vertex (o : Oracle) (p : PSLG) : ℕ × PSLG × Oracle :=
  dedup_vertex_loop (p.vertices.length + 1) o p

/-- C: dedup_pslg_one_edge. -/
def dedup_pslg_one_edge (o : Oracle) (p : PSLG) : ℕ × PSLG × Oracle :=
  scanPairs dedup_pslg_a_edge o p (squarePairs p.edges.length)

/-- The fixpoint loop of dedup_pslg_edge, with structural fuel; every
productive iteration removes one edge, so edge_count + 1 fuel suffices. -/
def dedup_edge_loop : ℕ → Oracle → PSLG → ℕ × PSLG × Oracle
  | 0, o, p => (NOOP, p, o)
  | fuel + 1, o, p =>
    let r := dedup_pslg_one_edge o p
    if r.1 = NOOP then r
    else if IS_AN_ERROR r.1 then r
    else dedup_edge_loop fuel r.2.2 r.2.1

/-- C: dedup_pslg_edge (edge dedup to fixpoint). -/
def dedup_pslg_edge (o : Oracle) (p : PSLG) : ℕ × PSLG × Oracle :=
  dedup_edge_loop (p.edges.length + 1) o p

/-- C: dedup_pslg = vertex dedup to fixpoint, then edge dedup to fixpoint;
errors propagate unchanged, otherwise the result is SUCCESS. -/
def dedup_pslg (o : Oracle) (p : PSLG) : ℕ × PSLG × Oracle :=
  let r := dedup_pslg_vertex o p
  if IS_AN_ERROR r.1 then r
  else
    let r2 := dedup_pslg_edge r.2.2 r.2.1
    if IS_AN_ERROR r2.1 then r2
    else (SUCCESS, r2.2.1, r2.2.2)

/-! ### Splitter / fixpoint driver -/

/-- C: remove_single_edge: first successful (or failing) split over all
ordered edge-index pairs, else NOOP. -/
def remove_single_edge (o : Oracle) (p : PSLG) : ℕ × PSLG × Oracle :=
  scanPairs splitPSLG o p (squarePairs p.edges.length)

/-- C: split_entirely.  The source loop has no known termination measure
(a split can be cancelled by the following dedup), so the embedding takes
an explicit iteration bound; the zero-fuel result is an arbitrary SUCCESS
and every theorem about this function quantifies over the fuel in a way
that does not depend on that branch. -/
def split_entirely : ℕ → Oracle → PSLG → ℕ × PSLG × Oracle
  | 0, o, p => (SUCCESS, p, o)
  | fuel + 1, o, p =>
    let ne := p.edges.length
    let nv := p.vertices.length
    let r := remove_single_edge o p
    if r.1 = NOOP then (SUCCESS, r.2.1, r.2.2)
    else if IS_AN_ERROR r.1 then r
    else
      let r2 := dedup_pslg r.2.2 r.2.1
      if IS_AN_ERROR r2.1 then r2
      else if r2.2.1.edges.length = ne ∧ r2.2.1.vertices.length = nv then r2
      else split_entirely fuel r2.2.2 r2.2.1

/-! ### Ear-attack -/

/-- Indices of the edges incident to vertex v, in scan order.  The C loop
counts them into d with early NOOP exit at d = 3; attack proceeds only
when the full list has exactly two entries, so the early exit is
observationally the same. -/
def incident_list (edges : List (ℕ × ℕ)) (v : ℕ) : List ℕ :=
  (List.range edges.length).filter fun i =>
    (edges.getD i (0, 0)).1 == v || (edges.getD i (0, 0)).2 == v

/-- The v1/v2/v3 normalization of attack_vertex: v1 is edges[e1][0]
flipped to edges[e1][1] when it equals the attacked vertex; v2/v3 swap
the entries of e2 when edges[e2][0] equals the attacked vertex. -/
def attack_triple (p : PSLG) (vertex_idx e1 e2 : ℕ) : ℕ × ℕ × ℕ :=
  let E1 := p.edges.getD e1 (0, 0)
  let E2 := p.edges.getD e2 (0, 0)
  (if E1.1 = vertex_idx then E1.2 else E1.1,
    if E2.1 = vertex_idx then E2.2 else E2.1,
    if E2.1 = vertex_idx then E2.1 else E2.2)

/-- The triangle attack_vertex emits: coordinates of v1, v2, v3 and the
FaceData of the PSLG's original polygon (no recomputation). -/
def attack_triangle (p : PSLG) (vertex_idx e1 e2 : ℕ) : TriangleRaw :=
  let t := attack_triple p vertex_idx e1 e2
  ⟨(p.vertices.getD t.1 default, p.vertices.getD t.2.1 default,
    p.vertices.getD t.2.2 default), p.poly.fd⟩

/-- The e3_exists scan of attack_vertex: an edge with exactly the index
pair (v1,v2) or (v2,v1) is already present. -/
def edge_between (edges : List (ℕ × ℕ)) (v1 v2 : ℕ) : Bool :=
  edges.any fun e => (e.1 == v1 && e.2 == v2) || (e.1 == v2 && e.2 == v1)

/-- C: attack_vertex.  The incidence scan yields e1 < e2 (indices in scan
order), so the temp copy loop that skips slots e1 and e2 is
eraseIdx e2 followed by eraseIdx e1.  The triangle is appended before the
edge list is touched; the temp malloc and the conditional edge realloc
each consume one oracle entry. -/
def attack_vertex (o : Oracle) (p : PSLG) (tri : Triangulation)
    (vertex_idx : ℕ) : ℕ × PSLG × Triangulation × Oracle :=
  match incident_list p.edges vertex_idx with
  | [e1, e2] =>
    let a1 := add_triangle o tri (attack_triangle p vertex_idx e1 e2)
    if IS_AN_ERROR a1.1 then (a1.1, p, a1.2.1, a1.2.2)
    else
      let t := attack_triple p vertex_idx e1 e2
      let e3_exists := edge_between p.edges t.1 t.2.1
      let ecount := if e3_exists then p.edges.length - 2
        else p.edges.length - 1
      match allocOk a1.2.2 with
      | (false, o1) => (PSLG_ATTACK_TEMP_EDGES_MALLOC_ERROR, p, a1.2.1, o1)
      | (true, o1) =>
        let temp := (p.edges.eraseIdx e2).eraseIdx e1
        let temp2 := if e3_exists then temp else temp ++ [(t.1, t.2.1)]
        match tryRealloc (REALIGN p.edges.length ecount) o1 with
        | (false, o2) =>
          (PSLG_ATTACK_EDGE_REALLOCATION_ERROR, p, a1.2.1, o2)
        | (true, o2) => (SUCCESS, { p with edges := temp2 }, a1.2.1, o2)
  | _ => (NOOP, p, tri, o)

/-! ### The data-model invariants (spec §3) -/

/-- Two segments cross in their interiors: they share a point that is
strictly inside both (spec §3, last invariant). -/
def segsCrossInterior (a b c d : Vec3) : Prop :=
  ∃ t u : ℚ, 0 < t ∧ t < 1 ∧ 0 < u ∧ u < 1 ∧ lerp_vec3 a b t = lerp_vec3 c d u

/-- Invariant: every index stored in E is a valid position in V. -/
def edgesInBounds (p : PSLG) : Prop :=
  ∀ e ∈ p.edges, e.1 < p.vertices.length ∧ e.2 < p.vertices.length

/-- Invariant: no two vertices of V are equal within ε. -/
def verticesDistinct (p : PSLG) : Prop :=
  ∀ j < p.vertices.length, ∀ i < j,
    equal_vec3 (p.vertices.getD i default) (p.vertices.getD j default) = false

/-- Invariant: no two edges of E connect the same unordered pair of vertex
positions. -/
def edgesDistinctPos (p : PSLG) : Prop :=
  ∀ j < p.edges.length, ∀ i < j,
    dup_edge_test p.vertices (p.edges.getD i (0, 0)) (p.edges.getD j (0, 0))
      = false

/-- Invariant: no two edges of E cross in their interiors. -/
def edgesNoCross (p : PSLG) : Prop :=
  ∀ j < p.edges.length, ∀ i < j,
    ¬segsCrossInterior
      (p.vertices.getD (p.edges.getD i (0, 0)).1 default)
      (p.vertices.getD (p.edges.getD i (0, 0)).2 default)
      (p.vertices.getD (p.edges.getD j (0, 0)).1 default)
      (p.vertices.getD (p.edges.getD j (0, 0)).2 default)

/-- The data-model invariant bundle of spec §3. -/
def invariants (p : PSLG) : Prop :=
  edgesInBounds p ∧ verticesDistinct p ∧ edgesDistinctPos p ∧ edgesNoCross p

/-! ### Concrete inputs used in counterexamples and witnesses -/

/-- A throwaway FaceData for concrete inputs. -/
def fd0 : FaceData := ⟨0xff0000ff, ⟨0, 0, 1⟩⟩

/-- T-junction: edge (0,0,0)-(2,0,0) and edge (1,0,0)-(1,1,0); the second
edge ends on the interior of the first, but their interiors do not cross. -/
def pslgT : PSLG :=
  { vertices := [⟨0, 0, 0⟩, ⟨2, 0, 0⟩, ⟨1, 0, 0⟩, ⟨1, 1, 0⟩]
    edges := [(0, 1), (2, 3)]
    poly := ⟨[], fd0⟩ }

/-- Two edges sharing the position (0,0,0) stored at two distinct vertex
indices (0 and 2). -/
def pslgShared : PSLG :=
  { vertices := [⟨0, 0, 0⟩, ⟨1, 0, 0⟩, ⟨0, 0, 0⟩, ⟨0, 1, 0⟩]
    edges := [(0, 1), (2, 3)]
    poly := ⟨[], fd0⟩ }

/-- A triangle PSLG (the boundary cycle of scenario (a) of the spec). -/
def pslgTri : PSLG :=
  { vertices := [⟨0, 0, 0⟩, ⟨1, 0, 0⟩, ⟨0, 1, 0⟩]
    edges := [(0, 1), (1, 2), (2, 0)]
    poly := ⟨[⟨0, 0, 0⟩, ⟨1, 0, 0⟩, ⟨0, 1, 0⟩], fd0⟩ }

/-- Seventeen vertices with V[0] = V[1]; removing one vertex crosses the
16-bucket boundary (BIT_ALIGN 17 = 32 ≠ 16 = BIT_ALIGN 16), so vertex
dedup attempts a shrinking realloc. -/
def pslg17 : PSLG :=
  { vertices := [⟨0, 0, 0⟩, ⟨0, 0, 0⟩, ⟨2, 0, 0⟩, ⟨3, 0, 0⟩, ⟨4, 0, 0⟩,
      ⟨5, 0, 0⟩, ⟨6, 0, 0⟩, ⟨7, 0, 0⟩, ⟨8, 0, 0⟩, ⟨9, 0, 0⟩, ⟨10, 0, 0⟩,
      ⟨11, 0, 0⟩, ⟨12, 0, 0⟩, ⟨13, 0, 0⟩, ⟨14, 0, 0⟩, ⟨15, 0, 0⟩,
      ⟨16, 0, 0⟩]
    edges := [(16, 2)]
    poly := ⟨[], fd0⟩ }

/-! ### Status-code facts -/

theorem is_error_ne_noop {x : ℕ} (h : IS_AN_ERROR x = true) : x ≠ NOOP := by
  intro hx; subst hx; simp [IS_AN_ERROR, STATUS_TYPE, NOOP] at h

theorem is_error_ne_success {x : ℕ} (h : IS_AN_ERROR x = true) : x ≠ SUCCESS := by
  intro hx; subst hx; simp [IS_AN_ERROR, STATUS_TYPE, SUCCESS] at h

theorem success_not_error : IS_AN_ERROR SUCCESS = false := by decide

theorem noop_not_error : IS_AN_ERROR NOOP = false := by decide

/-! ### add_triangle basic facts -/

/-- add_triangle that does not fail appends exactly the given triangle. -/
theorem add_triangle_ok {o : Oracle} {tri : Triangulation} {t : TriangleRaw}
    {r : ℕ × Triangulation × Oracle} (h : add_triangle o tri t = r)
    (he : IS_AN_ERROR r.1 = false) : r.2.1 = tri ++ [t] := by
  unfold add_triangle at h
  split at h
  · subst h
    have hb : IS_AN_ERROR ADDING_TRI_REALLOC_FAILURE = false := he
    exact absurd hb (by decide)
  · subst h; rfl

/-- add_triangle returns SUCCESS or the realloc-failure code. -/
theorem add_triangle_status {o : Oracle} {tri : Triangulation}
    {t : TriangleRaw} {r : ℕ × Triangulation × Oracle}
    (h : add_triangle o tri t = r) :
    r.1 = SUCCESS ∨ r.1 = ADDING_TRI_REALLOC_FAILURE := by
  unfold add_triangle at h
  split at h
  · subst h; right; rfl
  · subst h; left; rfl

/-! ### splitPSLG lemmas -/

/-- A split that reports NOOP leaves the PSLG and the oracle unchanged. -/
theorem splitPSLG_noop {o : Oracle} {p : PSLG} {e1 e2 : ℕ}
    {r : ℕ × PSLG × Oracle} (h : splitPSLG o p e1 e2 = r)
    (hr : r.1 = NOOP) : r = (NOOP, p, o) := by
  rw [splitPSLG.eq_def] at h
  dsimp only at h
  split at h
  · subst h; rfl
  · split at h
    · subst h; rfl
    · split at h
      · subst h
        have hb : PSLG_EDGE_SPLIT_VERTEX_REALLOC_ERROR = NOOP := hr
        exact absurd hb (by decide)
      · split at h
        · subst h
          have hb : PSLG_EDGE_SPLIT_EDGE_REALLOC_ERROR = NOOP := hr
          exact absurd hb (by decide)
        · subst h
          have hb : SUCCESS = NOOP := hr
          exact absurd hb (by decide)

/-- A split that fails (fatal error) leaves the PSLG unchanged. -/
theorem splitPSLG_error_unchanged {o : Oracle} {p : PSLG} {e1 e2 : ℕ}
    {r : ℕ × PSLG × Oracle} (h : splitPSLG o p e1 e2 = r)
    (hr : IS_AN_ERROR r.1 = true) : r.2.1 = p := by
  rw [splitPSLG.eq_def] at h
  dsimp only at h
  split at h
  · subst h; rfl
  · split at h
    · subst h; rfl
    · split at h
      · subst h; rfl
      · split at h
        · subst h; rfl
        · subst h
          have hb : IS_AN_ERROR SUCCESS = true := hr
          exact absurd hb (by decide)

/-- The state produced by a successful split: the intersection point is
appended to V; e1 and e2 are redirected to it and two new edges are
appended, connecting the old second endpoints to it. -/
theorem splitPSLG_success {o : Oracle} {p : PSLG} {e1 e2 : ℕ}
    {r : ℕ × PSLG × Oracle} (h : splitPSLG o p e1 e2 = r)
    (hr : r.1 = SUCCESS) :
    ∃ out : Vec3, r.2.1 =
      { p with
        vertices := p.vertices ++ [out]
        edges := ((p.edges.set e1 ((p.edges.getD e1 (0, 0)).1,
              p.vertices.length)).set e2 ((p.edges.getD e2 (0, 0)).1,
              p.vertices.length)) ++
          [((p.edges.getD e1 (0, 0)).2, p.vertices.length),
            ((p.edges.getD e2 (0, 0)).2, p.vertices.length)] } := by
  rw [splitPSLG.eq_def] at h
  dsimp only at h
  split at h
  · subst h
    have hb : NOOP = SUCCESS := hr
    exact absurd hb (by decide)
  · split at h
    · subst h
      have hb : NOOP = SUCCESS := hr
      exact absurd hb (by decide)
    · split at h
      · subst h
        have hb : PSLG_EDGE_SPLIT_VERTEX_REALLOC_ERROR = SUCCESS := hr
        exact absurd hb (by decide)
      · split at h
        · subst h
          have hb : PSLG_EDGE_SPLIT_EDGE_REALLOC_ERROR = SUCCESS := hr
          exact absurd hb (by decide)
        · subst h
          exact ⟨_, rfl⟩

/-- Membership after two List.set operations. -/
theorem mem_set_set {l : List (ℕ × ℕ)} {a b e : ℕ × ℕ} {i j : ℕ}
    (he : e ∈ (l.set i a).set j b) : e ∈ l ∨ e = a ∨ e = b := by
  rcases List.mem_or_eq_of_mem_set he with h1 | h1
  · rcases List.mem_or_eq_of_mem_set h1 with h2 | h2
    · exact Or.inl h2
    · exact Or.inr (Or.inl h2)
  · exact Or.inr (Or.inr h1)

/-- Endpoints read through getD are at most the vertex count when the
index-validity invariant holds (the out-of-range default is (0,0)). -/
theorem getD_endpoint_le {p : PSLG} (hp : edgesInBounds p) (i : ℕ) :
    (p.edges.getD i (0, 0)).1 ≤ p.vertices.length ∧
      (p.edges.getD i (0, 0)).2 ≤ p.vertices.length := by
  by_cases hi : i < p.edges.length
  · have hmem : p.edges.getD i (0, 0) ∈ p.edges := by
      rw [List.getD_eq_getElem _ _ hi]
      exact List.getElem_mem hi
    rcases hp _ hmem with ⟨h1, h2⟩
    exact ⟨Nat.le_of_lt h1, Nat.le_of_lt h2⟩
  · rw [List.getD_eq_default _ _ (Nat.le_of_not_lt hi)]
    exact ⟨Nat.zero_le _, Nat.zero_le _⟩

/-- A successful split grows V by exactly 1 and E by exactly 2. -/
theorem splitPSLG_success_counts {o : Oracle} {p : PSLG} {e1 e2 : ℕ}
    {r : ℕ × PSLG × Oracle} (h : splitPSLG o p e1 e2 = r)
    (hr : r.1 = SUCCESS) :
    r.2.1.vertices.length = p.vertices.length + 1 ∧
      r.2.1.edges.length = p.edges.length + 2 := by
  obtain ⟨out, hshape⟩ := splitPSLG_success h hr
  rw [hshape]
  constructor
  · simp only [List.length_append, List.length_cons, List.length_nil]
  · simp only [List.length_append, List.length_set, List.length_cons,
      List.length_nil]

/-- Any split outcome preserves the index-validity invariant. -/
theorem splitPSLG_inbounds {o : Oracle} {p : PSLG} {e1 e2 : ℕ}
    {r : ℕ × PSLG × Oracle} (h : splitPSLG o p e1 e2 = r)
    (hp : edgesInBounds p) : edgesInBounds r.2.1 := by
  rw [splitPSLG.eq_def] at h
  dsimp only at h
  split at h
  · subst h; exact hp
  · split at h
    · subst h; exact hp
    · split at h
      · subst h; exact hp
      · split at h
        · subst h; exact hp
        · subst h
          intro e he
          simp only [List.length_append, List.length_cons, List.length_nil]
          simp only [List.mem_append, List.mem_cons, List.not_mem_nil,
            or_false] at he
          rcases he with hm | hm | hm
          · rcases mem_set_set hm with h2 | h2 | h2
            · rcases hp e h2 with ⟨hb1, hb2⟩; omega
            · subst h2
              have := (getD_endpoint_le hp e1).1
              simp only []
              omega
            · subst h2
              have := (getD_endpoint_le hp e2).1
              simp only []
              omega
          · subst hm
            have := (getD_endpoint_le hp e1).2
            simp only []
            omega
          · subst hm
            have := (getD_endpoint_le hp e2).2
            simp only []
            omega

/-! ### dedup element-operation lemmas -/

/-- A vertex-merge step that reports NOOP changes nothing. -/
theorem a_vertex_noop_unchanged {o : Oracle} {p : PSLG} {v1 v2 : ℕ}
    {r : ℕ × PSLG × Oracle} (h : dedup_pslg_a_vertex o p v1 v2 = r)
    (hr : r.1 = NOOP) : r = (NOOP, p, o) := by
  rw [dedup_pslg_a_vertex.eq_def] at h
  split at h
  · subst h; rfl
  · split at h
    · subst h; rfl
    · split at h
      · subst h; rfl
      · dsimp only at h
        split at h
        · subst h
          have hb : DEDUP_PSLG_VERTEX_REALLOC_ERROR = NOOP := hr
          exact absurd hb (by decide)
        · subst h
          have hb : SUCCESS = NOOP := hr
          exact absurd hb (by decide)

/-- A NOOP vertex-merge on an ordered pair means the two positions are not
equal within ε. -/
theorem a_vertex_noop_not_equal {o : Oracle} {p : PSLG} {v1 v2 : ℕ}
    {r : ℕ × PSLG × Oracle} (h : dedup_pslg_a_vertex o p v1 v2 = r)
    (hr : r.1 = NOOP) (hlt : v1 < v2) :
    equal_vec3 (p.vertices.getD v1 default) (p.vertices.getD v2 default)
      = false := by
  have h1 : ¬(v1 = v2) := by omega
  have h2 : ¬(v2 < v1) := by omega
  rw [dedup_pslg_a_vertex.eq_def, if_neg h1, if_neg h2] at h
  by_cases heq : equal_vec3 (p.vertices.getD v1 default)
      (p.vertices.getD v2 default) = false
  · exact heq
  · rw [if_neg heq] at h
    dsimp only at h
    split at h
    · subst h
      have hb : DEDUP_PSLG_VERTEX_REALLOC_ERROR = NOOP := hr
      exact absurd hb (by decide)
    · subst h
      have hb : SUCCESS = NOOP := hr
      exact absurd hb (by decide)

/-- A successful vertex merge removes position v2 from V. -/
theorem a_vertex_success_vertices {o : Oracle} {p : PSLG} {v1 v2 : ℕ}
    {r : ℕ × PSLG × Oracle} (h : dedup_pslg_a_vertex o p v1 v2 = r)
    (hr : r.1 = SUCCESS) :
    r.2.1.vertices = p.vertices.take v2 ++ p.vertices.drop (v2 + 1) := by
  rw [dedup_pslg_a_vertex.eq_def] at h
  split at h
  · subst h
    have hb : NOOP = SUCCESS := hr
    exact absurd hb (by decide)
  · split at h
    · subst h
      have hb : NOOP = SUCCESS := hr
      exact absurd hb (by decide)
    · split at h
      · subst h
        have hb : NOOP = SUCCESS := hr
        exact absurd hb (by decide)
      · dsimp only at h
        split at h
        · subst h
          have hb : DEDUP_PSLG_VERTEX_REALLOC_ERROR = SUCCESS := hr
          exact absurd hb (by decide)
        · subst h; rfl

/-- An edge-removal step that reports NOOP changes nothing. -/
theorem a_edge_noop_unchanged {o : Oracle} {p : PSLG} {e1 e2 : ℕ}
    {r : ℕ × PSLG × Oracle} (h : dedup_pslg_a_edge o p e1 e2 = r)
    (hr : r.1 = NOOP) : r = (NOOP, p, o) := by
  rw [dedup_pslg_a_edge.eq_def] at h
  split at h
  · subst h; rfl
  · split at h
    · subst h; rfl
    · split at h
      · subst h; rfl
      · dsimp only at h
        split at h
        · subst h
          have hb : DEDUP_PSLG_EDGES_REALLOC_ERROR = NOOP := hr
          exact absurd hb (by decide)
        · subst h
          have hb : SUCCESS = NOOP := hr
          exact absurd hb (by decide)

/-- A NOOP edge-removal on an ordered pair means the duplicate test fails. -/
theorem a_edge_noop_not_dup {o : Oracle} {p : PSLG} {e1 e2 : ℕ}
    {r : ℕ × PSLG × Oracle} (h : dedup_pslg_a_edge o p e1 e2 = r)
    (hr : r.1 = NOOP) (hlt : e1 < e2) :
    dup_edge_test p.vertices (p.edges.getD e1 (0, 0))
      (p.edges.getD e2 (0, 0)) = false := by
  have h1 : ¬(e2 < e1) := by omega
  have h2 : ¬(e1 = e2) := by omega
  rw [dedup_pslg_a_edge.eq_def, if_neg h1, if_neg h2] at h
  by_cases heq : dup_edge_test p.vertices (p.edges.getD e1 (0, 0))
      (p.edges.getD e2 (0, 0)) = false
  · exact heq
  · rw [if_neg heq] at h
    dsimp only at h
    split at h
    · subst h
      have hb : DEDUP_PSLG_EDGES_REALLOC_ERROR = NOOP := hr
      exact absurd hb (by decide)
    · subst h
      have hb : SUCCESS = NOOP := hr
      exact absurd hb (by decide)

/-- A successful edge removal removes edge slot e2. -/
theorem a_edge_success_edges {o : Oracle} {p : PSLG} {e1 e2 : ℕ}
    {r : ℕ × PSLG × Oracle} (h : dedup_pslg_a_edge o p e1 e2 = r)
    (hr : r.1 = SUCCESS) :
    r.2.1.edges = p.edges.take e2 ++ p.edges.drop (e2 + 1) := by
  rw [dedup_pslg_a_edge.eq_def] at h
  split at h
  · subst h
    have hb : NOOP = SUCCESS := hr
    exact absurd hb (by decide)
  · split at h
    · subst h
      have hb : NOOP = SUCCESS := hr
      exact absurd hb (by decide)
    · split at h
      · subst h
        have hb : NOOP = SUCCESS := hr
        exact absurd hb (by decide)
      · dsimp only at h
        split at h
        · subst h
          have hb : DEDUP_PSLG_EDGES_REALLOC_ERROR = SUCCESS := hr
          exact absurd hb (by decide)
        · subst h; rfl

/-- No branch of the edge-removal step touches the vertex list. -/
theorem a_edge_vertices_unchanged {o : Oracle} {p : PSLG} {e1 e2 : ℕ}
    {r : ℕ × PSLG × Oracle} (h : dedup_pslg_a_edge o p e1 e2 = r) :
    r.2.1.vertices = p.vertices := by
  rw [dedup_pslg_a_edge.eq_def] at h
  split at h
  · subst h; rfl
  · split at h
    · subst h; rfl
    · split at h
      · subst h; rfl
      · dsimp only at h
        split at h
        · subst h; rfl
        · subst h; rfl

/-! ### Scan lemmas -/

theorem mem_squarePairs {n i j : ℕ} :
    (i, j) ∈ squarePairs n ↔ i < n ∧ j < n := by
  simp [squarePairs, List.mem_range]

/-- When every pair reports NOOP without touching the state, the whole
scan reports NOOP without touching the state. -/
theorem scanPairs_all_noop {f : Oracle → PSLG → ℕ → ℕ → ℕ × PSLG × Oracle}
    {p : PSLG} {L : List (ℕ × ℕ)}
    (hall : ∀ ij ∈ L, ∀ o2 : Oracle, f o2 p ij.1 ij.2 = (NOOP, p, o2)) :
    ∀ o : Oracle, scanPairs f o p L = (NOOP, p, o) := by
  induction L with
  | nil => intro o; rfl
  | cons ij rest ih =>
    intro o
    simp only [scanPairs]
    rw [hall ij (List.mem_cons_self ij rest) o]
    dsimp only
    rw [if_pos rfl]
    exact ih (fun x hx o2 => hall x (List.mem_cons_of_mem ij hx) o2) o

/-- If a scan reports NOOP, the state and oracle are unchanged and every
scanned pair reported NOOP (given each NOOP step changes nothing). -/
theorem scanPairs_noop_all {f : Oracle → PSLG → ℕ → ℕ → ℕ × PSLG × Oracle}
    {p : PSLG}
    (hf : ∀ (o2 : Oracle) (i j : ℕ) (r2 : ℕ × PSLG × Oracle),
      f o2 p i j = r2 → r2.1 = NOOP → r2 = (NOOP, p, o2))
    {L : List (ℕ × ℕ)} {o : Oracle} {r : ℕ × PSLG × Oracle}
    (h : scanPairs f o p L = r) (hr : r.1 = NOOP) :
    r = (NOOP, p, o) ∧ ∀ ij ∈ L, (f o p ij.1 ij.2).1 = NOOP := by
  induction L generalizing o with
  | nil =>
    cases h
    exact ⟨rfl, by intro ij hij; cases hij⟩
  | cons ij rest ih =>
    simp only [scanPairs] at h
    split at h
    · next hsp =>
      have hfe := hf o ij.1 ij.2 _ rfl hsp
      rw [hfe] at h
      obtain ⟨h1, h2⟩ := ih h
      refine ⟨h1, ?_⟩
      intro x hx
      rcases List.mem_cons.1 hx with hx | hx
      · subst hx; exact hsp
      · exact h2 x hx
    · next hsp =>
      rw [h] at hsp
      exact absurd hr hsp

/-- If a scan produces a non-NOOP non-error result, the measure μ drops,
given that it drops at every productive step. -/
theorem scanPairs_decrease {f : Oracle → PSLG → ℕ → ℕ → ℕ × PSLG × Oracle}
    {μ : PSLG → ℕ} {p : PSLG} {L : List (ℕ × ℕ)}
    (hf : ∀ (o2 : Oracle) (i j : ℕ) (r2 : ℕ × PSLG × Oracle),
      f o2 p i j = r2 → r2.1 = NOOP → r2 = (NOOP, p, o2))
    (hd : ∀ (o2 : Oracle) (ij : ℕ × ℕ) (r2 : ℕ × PSLG × Oracle), ij ∈ L →
      f o2 p ij.1 ij.2 = r2 → r2.1 ≠ NOOP → IS_AN_ERROR r2.1 = false →
      μ r2.2.1 < μ p)
    {o : Oracle} {r : ℕ × PSLG × Oracle}
    (h : scanPairs f o p L = r) (hnoop : r.1 ≠ NOOP)
    (herr : IS_AN_ERROR r.1 = false) : μ r.2.1 < μ p := by
  induction L generalizing o with
  | nil => cases h; exact absurd rfl hnoop
  | cons ij rest ih =>
    simp only [scanPairs] at h
    split at h
    · next hsp =>
      have hfe := hf o ij.1 ij.2 _ rfl hsp
      rw [hfe] at h
      exact ih (fun o2 x r2 hx => hd o2 x r2 (List.mem_cons_of_mem ij hx)) h
    · next hsp =>
      exact hd o ij r (List.mem_cons_self ij rest) h
        (by rw [h] at hsp; exact hsp) herr

/-! ### dedup driver lemmas -/

/-- The three possible statuses of a vertex-merge step. -/
theorem a_vertex_status {o : Oracle} {p : PSLG} {v1 v2 : ℕ}
    {r : ℕ × PSLG × Oracle} (h : dedup_pslg_a_vertex o p v1 v2 = r) :
    r.1 = NOOP ∨ r.1 = DEDUP_PSLG_VERTEX_REALLOC_ERROR ∨ r.1 = SUCCESS := by
  rw [dedup_pslg_a_vertex.eq_def] at h
  split at h
  · subst h; exact Or.inl rfl
  · split at h
    · subst h; exact Or.inl rfl
    · split at h
      · subst h; exact Or.inl rfl
      · dsimp only at h
        split at h
        · subst h; exact Or.inr (Or.inl rfl)
        · subst h; exact Or.inr (Or.inr rfl)

/-- The three possible statuses of an edge-removal step. -/
theorem a_edge_status {o : Oracle} {p : PSLG} {e1 e2 : ℕ}
    {r : ℕ × PSLG × Oracle} (h : dedup_pslg_a_edge o p e1 e2 = r) :
    r.1 = NOOP ∨ r.1 = DEDUP_PSLG_EDGES_REALLOC_ERROR ∨ r.1 = SUCCESS := by
  rw [dedup_pslg_a_edge.eq_def] at h
  split at h
  · subst h; exact Or.inl rfl
  · split at h
    · subst h; exact Or.inl rfl
    · split at h
      · subst h; exact Or.inl rfl
      · dsimp only at h
        split at h
        · subst h; exact Or.inr (Or.inl rfl)
        · subst h; exact Or.inr (Or.inr rfl)

/-- The vertex-merge step reports NOOP in each of the three guard cases. -/
theorem a_vertex_noop_cases {o : Oracle} {p : PSLG} {v1 v2 : ℕ}
    (hc : v1 = v2 ∨ v2 < v1 ∨
      equal_vec3 (p.vertices.getD v1 default) (p.vertices.getD v2 default)
        = false) :
    dedup_pslg_a_vertex o p v1 v2 = (NOOP, p, o) := by
  rw [dedup_pslg_a_vertex.eq_def]
  rcases hc with hc | hc | hc
  · rw [if_pos hc]
  · rw [if_neg (by omega), if_pos hc]
  · by_cases h1 : v1 = v2
    · rw [if_pos h1]
    · by_cases h2 : v2 < v1
      · rw [if_neg h1, if_pos h2]
      · rw [if_neg h1, if_neg h2, if_pos hc]

/-- The edge-removal step reports NOOP in each of the three guard cases. -/
theorem a_edge_noop_cases {o : Oracle} {p : PSLG} {e1 e2 : ℕ}
    (hc : e2 < e1 ∨ e1 = e2 ∨
      dup_edge_test p.vertices (p.edges.getD e1 (0, 0))
        (p.edges.getD e2 (0, 0)) = false) :
    dedup_pslg_a_edge o p e1 e2 = (NOOP, p, o) := by
  rw [dedup_pslg_a_edge.eq_def]
  rcases hc with hc | hc | hc
  · rw [if_pos hc]
  · rw [if_neg (by omega), if_pos hc]
  · by_cases h1 : e2 < e1
    · rw [if_pos h1]
    · by_cases h2 : e1 = e2
      · rw [if_neg h1, if_pos h2]
      · rw [if_neg h1, if_neg h2, if_pos hc]

/-- A NOOP vertex scan changes nothing and certifies vertex distinctness. -/
theorem one_vertex_noop_all {o : Oracle} {p : PSLG} {r : ℕ × PSLG × Oracle}
    (h : dedup_pslg_one_vertex o p = r) (hr : r.1 = NOOP) :
    r = (NOOP, p, o) ∧ verticesDistinct p := by
  have hf : ∀ (o2 : Oracle) (i j : ℕ) (r2 : ℕ × PSLG × Oracle),
      dedup_pslg_a_vertex o2 p i j = r2 → r2.1 = NOOP → r2 = (NOOP, p, o2) :=
    fun o2 i j r2 hh hhr => a_vertex_noop_unchanged hh hhr
  obtain ⟨h1, h2⟩ := scanPairs_noop_all hf h hr
  refine ⟨h1, ?_⟩
  intro j hj i hij
  have hmem : (i, j) ∈ squarePairs p.vertices.length :=
    mem_squarePairs.2 ⟨by omega, hj⟩
  exact a_vertex_noop_not_equal rfl (h2 (i, j) hmem) hij

/-- On a vertex-distinct PSLG the vertex scan is a global NOOP. -/
theorem one_vertex_of_distinct {p : PSLG} (hp : verticesDistinct p)
    (o : Oracle) : dedup_pslg_one_vertex o p = (NOOP, p, o) := by
  apply scanPairs_all_noop
  intro ij hmem o2
  rcases ij with ⟨i, j⟩
  obtain ⟨hi, hj⟩ := mem_squarePairs.1 hmem
  rcases Nat.lt_trichotomy i j with hij | hij | hij
  · exact a_vertex_noop_cases (Or.inr (Or.inr (hp j hj i hij)))
  · exact a_vertex_noop_cases (Or.inl hij)
  · exact a_vertex_noop_cases (Or.inr (Or.inl hij))

/-- A NOOP edge scan changes nothing and certifies edge distinctness. -/
theorem one_edge_noop_all {o : Oracle} {p : PSLG} {r : ℕ × PSLG × Oracle}
    (h : dedup_pslg_one_edge o p = r) (hr : r.1 = NOOP) :
    r = (NOOP, p, o) ∧ edgesDistinctPos p := by
  have hf : ∀ (o2 : Oracle) (i j : ℕ) (r2 : ℕ × PSLG × Oracle),
      dedup_pslg_a_edge o2 p i j = r2 → r2.1 = NOOP → r2 = (NOOP, p, o2) :=
    fun o2 i j r2 hh hhr => a_edge_noop_unchanged hh hhr
  obtain ⟨h1, h2⟩ := scanPairs_noop_all hf h hr
  refine ⟨h1, ?_⟩
  intro j hj i hij
  have hmem : (i, j) ∈ squarePairs p.edges.length :=
    mem_squarePairs.2 ⟨by omega, hj⟩
  exact a_edge_noop_not_dup rfl (h2 (i, j) hmem) hij

/-- On an edge-distinct PSLG the edge scan is a global NOOP. -/
theorem one_edge_of_distinct {p : PSLG} (hp : edgesDistinctPos p)
    (o : Oracle) : dedup_pslg_one_edge o p = (NOOP, p, o) := by
  apply scanPairs_all_noop
  intro ij hmem o2
  rcases ij with ⟨i, j⟩
  obtain ⟨hi, hj⟩ := mem_squarePairs.1 hmem
  rcases Nat.lt_trichotomy i j with hij | hij | hij
  · exact a_edge_noop_cases (Or.inr (Or.inr (hp j hj i hij)))
  · exact a_edge_noop_cases (Or.inr (Or.inl hij))
  · exact a_edge_noop_cases (Or.inl hij)

/-- A productive vertex scan strictly shrinks V. -/
theorem one_vertex_decrease {o : Oracle} {p : PSLG} {r : ℕ × PSLG × Oracle}
    (h : dedup_pslg_one_vertex o p = r) (hnoop : r.1 ≠ NOOP)
    (herr : IS_AN_ERROR r.1 = false) :
    r.2.1.vertices.length < p.vertices.length := by
  refine scanPairs_decrease (μ := fun q => q.vertices.length)
    (fun o2 i j r2 hh hhr => a_vertex_noop_unchanged hh hhr) ?_ h hnoop herr
  intro o2 ij r2 hmem hh hn he
  rcases a_vertex_status hh with hs | hs | hs
  · exact absurd hs hn
  · rw [hs] at he; exact absurd he (by decide)
  · have hshape := a_vertex_success_vertices hh hs
    rcases ij with ⟨i, j⟩
    obtain ⟨hi, hj⟩ := mem_squarePairs.1 hmem
    show r2.2.1.vertices.length < p.vertices.length
    rw [hshape]
    simp only [List.length_append, List.length_take, List.length_drop]
    omega

/-- A productive edge scan strictly shrinks E. -/
theorem one_edge_decrease {o : Oracle} {p : PSLG} {r : ℕ × PSLG × Oracle}
    (h : dedup_pslg_one_edge o p = r) (hnoop : r.1 ≠ NOOP)
    (herr : IS_AN_ERROR r.1 = false) :
    r.2.1.edges.length < p.edges.length := by
  refine scanPairs_decrease (μ := fun q => q.edges.length)
    (fun o2 i j r2 hh hhr => a_edge_noop_unchanged hh hhr) ?_ h hnoop herr
  intro o2 ij r2 hmem hh hn he
  rcases a_edge_status hh with hs | hs | hs
  · exact absurd hs hn
  · rw [hs] at he; exact absurd he (by decide)
  · have hshape := a_edge_success_edges hh hs
    rcases ij with ⟨i, j⟩
    obtain ⟨hi, hj⟩ := mem_squarePairs.1 hmem
    show r2.2.1.edges.length < p.edges.length
    rw [hshape]
    simp only [List.length_append, List.length_take, List.length_drop]
    omega

/-- Predicate transfer along equal vertex lists. -/
theorem verticesDistinct_congr {p q : PSLG} (hv : q.vertices = p.vertices)
    (h : verticesDistinct p) : verticesDistinct q := by
  unfold verticesDistinct at h ⊢
  rw [hv]
  exact h

/-- The vertex-dedup loop, run with enough fuel and not failing, ends in a
NOOP with pairwise-distinct vertices. -/
theorem dedup_vertex_loop_post : ∀ (fuel : ℕ) {o : Oracle} {p : PSLG}
    {r : ℕ × PSLG × Oracle}, p.vertices.length < fuel →
    dedup_vertex_loop fuel o p = r → IS_AN_ERROR r.1 = false →
    r.1 = NOOP ∧ verticesDistinct r.2.1 := by
  intro fuel
  induction fuel with
  | zero => intro o p r hf; omega
  | succ fuel ih =>
    intro o p r hf h herr
    rw [dedup_vertex_loop] at h
    split at h
    · rename_i hn
      obtain ⟨h1, h2⟩ := one_vertex_noop_all rfl hn
      rw [h1] at h
      subst h
      exact ⟨rfl, h2⟩
    · split at h
      · rename_i hn he
        rw [h] at he
        rw [herr] at he
        exact absurd he (by decide)
      · rename_i hn he
        have he2 : IS_AN_ERROR (dedup_pslg_one_vertex o p).1 = false := by
          revert he
          cases IS_AN_ERROR (dedup_pslg_one_vertex o p).1 <;> simp
        have hdec := one_vertex_decrease rfl hn he2
        exact ih (by omega) h herr

/-- The edge-dedup loop analogue. -/
theorem dedup_edge_loop_post : ∀ (fuel : ℕ) {o : Oracle} {p : PSLG}
    {r : ℕ × PSLG × Oracle}, p.edges.length < fuel →
    dedup_edge_loop fuel o p = r → IS_AN_ERROR r.1 = false →
    r.1 = NOOP ∧ edgesDistinctPos r.2.1 := by
  intro fuel
  induction fuel with
  | zero => intro o p r hf; omega
  | succ fuel ih =>
    intro o p r hf h herr
    rw [dedup_edge_loop] at h
    split at h
    · rename_i hn
      obtain ⟨h1, h2⟩ := one_edge_noop_all rfl hn
      rw [h1] at h
      subst h
      exact ⟨rfl, h2⟩
    · split at h
      · rename_i hn he
        rw [h] at he
        rw [herr] at he
        exact absurd he (by decide)
      · rename_i hn he
        have he2 : IS_AN_ERROR (dedup_pslg_one_edge o p).1 = false := by
          revert he
          cases IS_AN_ERROR (dedup_pslg_one_edge o p).1 <;> simp
        have hdec := one_edge_decrease rfl hn he2
        exact ih (by omega) h herr

/-- No step of the edge scan moves the vertex list. -/
theorem scan_a_edge_vertices : ∀ (L : List (ℕ × ℕ)) (o : Oracle) (p : PSLG)
    (r : ℕ × PSLG × Oracle), scanPairs dedup_pslg_a_edge o p L = r →
    r.2.1.vertices = p.vertices := by
  intro L
  induction L with
  | nil =>
    intro o p r h
    cases h
    rfl
  | cons ij rest ih =>
    intro o p r h
    simp only [scanPairs] at h
    split at h
    · exact (ih _ _ _ h).trans (a_edge_vertices_unchanged rfl)
    · exact a_edge_vertices_unchanged h

/-- The edge-dedup loop never moves the vertex list. -/
theorem dedup_edge_loop_vertices : ∀ (fuel : ℕ) (o : Oracle) (p : PSLG)
    (r : ℕ × PSLG × Oracle), dedup_edge_loop fuel o p = r →
    r.2.1.vertices = p.vertices := by
  intro fuel
  induction fuel with
  | zero =>
    intro o p r h
    cases h
    rfl
  | succ fuel ih =>
    intro o p r h
    rw [dedup_edge_loop] at h
    split at h
    · rw [← h]
      exact scan_a_edge_vertices _ _ _ _ rfl
    · split at h
      · rw [← h]
        exact scan_a_edge_vertices _ _ _ _ rfl
      · exact (ih _ _ _ h).trans (scan_a_edge_vertices _ _ _ _ rfl)

/-- Driver-level corollary: a non-failing vertex dedup pass ends NOOP with
pairwise-distinct vertices. -/
theorem dedup_pslg_vertex_post {o : Oracle} {p : PSLG}
    {r : ℕ × PSLG × Oracle} (h : dedup_pslg_vertex o p = r)
    (herr : IS_AN_ERROR r.1 = false) :
    r.1 = NOOP ∧ verticesDistinct r.2.1 := by
  unfold dedup_pslg_vertex at h
  exact dedup_vertex_loop_post _ (by omega) h herr

/-- Driver-level corollary: a non-failing edge dedup pass ends NOOP with
pairwise-distinct edges. -/
theorem dedup_pslg_edge_post {o : Oracle} {p : PSLG}
    {r : ℕ × PSLG × Oracle} (h : dedup_pslg_edge o p = r)
    (herr : IS_AN_ERROR r.1 = false) :
    r.1 = NOOP ∧ edgesDistinctPos r.2.1 := by
  unfold dedup_pslg_edge at h
  exact dedup_edge_loop_post _ (by omega) h herr

/-- Driver-level corollary: the edge dedup pass never moves the vertices. -/
theorem dedup_pslg_edge_vertices {o : Oracle} {p : PSLG}
    {r : ℕ × PSLG × Oracle} (h : dedup_pslg_edge o p = r) :
    r.2.1.vertices = p.vertices := by
  unfold dedup_pslg_edge at h
  exact dedup_edge_loop_vertices _ _ _ _ h

/-- dedup_pslg that does not fail returns SUCCESS and a PSLG with
pairwise-distinct vertex positions and pairwise-distinct edges. -/
theorem dedup_pslg_post {o : Oracle} {p : PSLG} {r : ℕ × PSLG × Oracle}
    (h : dedup_pslg o p = r) (herr : IS_AN_ERROR r.1 = false) :
    r.1 = SUCCESS ∧ verticesDistinct r.2.1 ∧ edgesDistinctPos r.2.1 := by
  unfold dedup_pslg at h
  dsimp only at h
  split at h
  · rename_i he
    rw [h] at he
    rw [herr] at he
    exact absurd he (by decide)
  · rename_i he
    split at h
    · rename_i he2
      rw [h] at he2
      rw [herr] at he2
      exact absurd he2 (by decide)
    · rename_i he2
      have hev : IS_AN_ERROR (dedup_pslg_vertex o p).1 = false := by
        revert he
        cases IS_AN_ERROR (dedup_pslg_vertex o p).1 <;> simp
      have hee : IS_AN_ERROR (dedup_pslg_edge (dedup_pslg_vertex o p).2.2
          (dedup_pslg_vertex o p).2.1).1 = false := by
        revert he2
        cases IS_AN_ERROR (dedup_pslg_edge (dedup_pslg_vertex o p).2.2
          (dedup_pslg_vertex o p).2.1).1 <;> simp
      obtain ⟨hv1, hv2⟩ := dedup_pslg_vertex_post rfl hev
      obtain ⟨he1, heD⟩ := dedup_pslg_edge_post rfl hee
      have hvert := dedup_pslg_edge_vertices
        (o := (dedup_pslg_vertex o p).2.2)
        (p := (dedup_pslg_vertex o p).2.1) rfl
      subst h
      exact ⟨rfl, verticesDistinct_congr hvert hv2, heD⟩

/-- dedup_pslg on an already-clean PSLG is the identity with SUCCESS. -/
theorem dedup_pslg_of_clean {p : PSLG} (h1 : verticesDistinct p)
    (h2 : edgesDistinctPos p) (o : Oracle) :
    dedup_pslg o p = (SUCCESS, p, o) := by
  have hv : dedup_pslg_vertex o p = (NOOP, p, o) := by
    unfold dedup_pslg_vertex
    rw [dedup_vertex_loop]
    rw [one_vertex_of_distinct h1 o]
    rfl
  have he : dedup_pslg_edge o p = (NOOP, p, o) := by
    unfold dedup_pslg_edge
    rw [dedup_edge_loop]
    rw [one_edge_of_distinct h2 o]
    rfl
  unfold dedup_pslg
  rw [hv]
  dsimp only
  rw [he]
  dsimp only
  rw [noop_not_error]
  rfl

/-! ### Allocation-failure and propagation lemmas -/

/-- A vertex merge whose shrinking realloc fails reports the dedup vertex
realloc error and leaves the vertex array shifted down over slot v2 with
the last entry duplicated, while the length (the C vertex_count) and the
edge endpoints are untouched. -/
theorem a_vertex_realloc_failure {p : PSLG} {v1 v2 : ℕ} {ot : Oracle}
    (hlt : v1 < v2)
    (heq : equal_vec3 (p.vertices.getD v1 default)
      (p.vertices.getD v2 default) = true)
    (hre : REALIGN p.vertices.length (p.vertices.length - 1) = true) :
    dedup_pslg_a_vertex (false :: ot) p v1 v2 =
      (DEDUP_PSLG_VERTEX_REALLOC_ERROR,
        { p with vertices := p.vertices.take v2 ++ p.vertices.drop (v2 + 1)
            ++ [p.vertices.getLastD default] }, ot) := by
  rw [dedup_pslg_a_vertex.eq_def]
  rw [if_neg (by omega), if_neg (by omega)]
  rw [if_neg (by rw [heq]; exact fun hc => absurd hc (by decide))]
  dsimp only
  rw [show tryRealloc (REALIGN p.vertices.length (p.vertices.length - 1))
      (false :: ot) = (false, ot) from by rw [tryRealloc, if_pos hre]; rfl]

/-- An error from the inner vertex scan is returned by the vertex-dedup
fixpoint driver unchanged, state included. -/
theorem dedup_vertex_driver_error {o : Oracle} {p : PSLG}
    (he : IS_AN_ERROR (dedup_pslg_one_vertex o p).1 = true) :
    dedup_pslg_vertex o p = dedup_pslg_one_vertex o p := by
  unfold dedup_pslg_vertex
  rw [dedup_vertex_loop]
  rw [if_neg (fun hn => is_error_ne_noop he hn)]
  rw [if_pos he]

/-- An error from the vertex pass is returned by dedup_pslg unchanged. -/
theorem dedup_error_prop {o : Oracle} {p : PSLG}
    (he : IS_AN_ERROR (dedup_pslg_vertex o p).1 = true) :
    dedup_pslg o p = dedup_pslg_vertex o p := by
  unfold dedup_pslg
  dsimp only
  rw [if_pos he]

/-- An error from the split scan is returned by the split_entirely
fixpoint driver unchanged (for any positive iteration bound). -/
theorem split_entirely_error_prop1 {fuel : ℕ} {o : Oracle} {p : PSLG}
    (he : IS_AN_ERROR (remove_single_edge o p).1 = true) :
    split_entirely (fuel + 1) o p = remove_single_edge o p := by
  rw [split_entirely]
  rw [if_neg (fun hn => is_error_ne_noop he hn)]
  rw [if_pos he]

/-- An error from the dedup that follows a successful split is returned by
the split_entirely fixpoint driver unchanged. -/
theorem split_entirely_error_prop2 {fuel : ℕ} {o : Oracle} {p : PSLG}
    (hs : (remove_single_edge o p).1 = SUCCESS)
    (he : IS_AN_ERROR (dedup_pslg (remove_single_edge o p).2.2
      (remove_single_edge o p).2.1).1 = true) :
    split_entirely (fuel + 1) o p =
      dedup_pslg (remove_single_edge o p).2.2 (remove_single_edge o p).2.1
    := by
  rw [split_entirely]
  rw [if_neg (by rw [hs]; exact fun hc => absurd hc (by decide))]
  rw [if_neg (by rw [hs]; exact fun hc => absurd hc (by decide))]
  dsimp only
  rw [if_pos he]

/-! ### Ear-attack lemmas -/

/-- The incidence scan yields strictly increasing in-range edge indices. -/
theorem incident_list_two {edges : List (ℕ × ℕ)} {v e1 e2 : ℕ}
    (h : incident_list edges v = [e1, e2]) :
    e1 < e2 ∧ e2 < edges.length := by
  have hpw : (incident_list edges v).Pairwise (· < ·) :=
    List.Pairwise.sublist (List.filter_sublist _) (List.pairwise_lt_range _)
  rw [h] at hpw
  have h12 : e1 < e2 := by
    rcases List.pairwise_cons.1 hpw with ⟨h1, _⟩
    exact h1 e2 (List.mem_cons_self e2 [])
  have hmem : e2 ∈ incident_list edges v := by
    rw [h]
    exact List.mem_cons_of_mem e1 (List.mem_cons_self e2 [])
  have hlt : e2 < edges.length := by
    have := (List.mem_filter.1 hmem).1
    exact List.mem_range.1 this
  exact ⟨h12, hlt⟩

/-- Every index the incidence scan returns points at an edge touching v. -/
theorem incident_list_pred {edges : List (ℕ × ℕ)} {v i : ℕ}
    (h : i ∈ incident_list edges v) :
    (edges.getD i (0, 0)).1 = v ∨ (edges.getD i (0, 0)).2 = v := by
  have hc := (List.mem_filter.1 h).2
  rcases Bool.or_eq_true_iff.1 hc with hc | hc
  · exact Or.inl (by simpa using hc)
  · exact Or.inr (by simpa using hc)

/-- With two incident edges, the third entry of the normalized triple is
the attacked vertex itself. -/
theorem attack_triple_third {p : PSLG} {i e1 e2 : ℕ}
    (hinc : incident_list p.edges i = [e1, e2]) :
    (attack_triple p i e1 e2).2.2 = i := by
  have hmem : e2 ∈ incident_list p.edges i := by
    rw [hinc]
    exact List.mem_cons_of_mem e1 (List.mem_cons_self e2 [])
  rcases incident_list_pred hmem with hc | hc
  · unfold attack_triple
    dsimp only
    rw [if_pos hc]
    exact hc
  · unfold attack_triple
    dsimp only
    by_cases h1 : (p.edges.getD e2 (0, 0)).1 = i
    · rw [if_pos h1]
      exact h1
    · rw [if_neg h1]
      exact hc

/-- No attack outcome moves the vertex array. -/
theorem attack_vertex_vertices {o : Oracle} {p : PSLG} {tri : Triangulation}
    {i : ℕ} {r : ℕ × PSLG × Triangulation × Oracle}
    (h : attack_vertex o p tri i = r) : r.2.1.vertices = p.vertices := by
  rcases hI : incident_list p.edges i with _ | ⟨e1, _ | ⟨e2, _ | ⟨e3, L⟩⟩⟩
  · rw [attack_vertex.eq_def, hI] at h
    subst h; rfl
  · rw [attack_vertex.eq_def, hI] at h
    subst h; rfl
  · rw [attack_vertex.eq_def, hI] at h
    dsimp only at h
    split at h
    · subst h; rfl
    · split at h
      · subst h; rfl
      · split at h
        · subst h; rfl
        · subst h; rfl
  · rw [attack_vertex.eq_def, hI] at h
    subst h; rfl

/-- A successful attack appends exactly the normalized triangle. -/
theorem attack_success_triangulation {o : Oracle} {p : PSLG}
    {tri : Triangulation} {i e1 e2 : ℕ}
    {r : ℕ × PSLG × Triangulation × Oracle}
    (hinc : incident_list p.edges i = [e1, e2])
    (h : attack_vertex o p tri i = r) (hr : r.1 = SUCCESS) :
    r.2.2.1 = tri ++ [attack_triangle p i e1 e2] := by
  rw [attack_vertex.eq_def, hinc] at h
  dsimp only at h
  split at h
  · rename_i he
    rw [← h] at hr
    have hs : (add_triangle o tri (attack_triangle p i e1 e2)).1 = SUCCESS :=
      hr
    rw [hs] at he
    exact absurd he (by decide)
  · rename_i he
    have he2 : IS_AN_ERROR (add_triangle o tri
        (attack_triangle p i e1 e2)).1 = false := by
      revert he
      cases IS_AN_ERROR (add_triangle o tri (attack_triangle p i e1 e2)).1
        <;> simp
    split at h
    · subst h
      have hb : PSLG_ATTACK_TEMP_EDGES_MALLOC_ERROR = SUCCESS := hr
      exact absurd hb (by decide)
    · split at h
      · subst h
        have hb : PSLG_ATTACK_EDGE_REALLOCATION_ERROR = SUCCESS := hr
        exact absurd hb (by decide)
      · subst h
        exact add_triangle_ok rfl he2

/-- The state change of a successful attack: the two incident edges are
removed and, unless an edge between the two neighbours already exists,
the closing edge (v1, v2) is appended. -/
theorem attack_success_edges {o : Oracle} {p : PSLG}
    {tri : Triangulation} {i e1 e2 : ℕ}
    {r : ℕ × PSLG × Triangulation × Oracle}
    (hinc : incident_list p.edges i = [e1, e2])
    (h : attack_vertex o p tri i = r) (hr : r.1 = SUCCESS) :
    r.2.1.edges = (if edge_between p.edges (attack_triple p i e1 e2).1
        (attack_triple p i e1 e2).2.1 then
        (p.edges.eraseIdx e2).eraseIdx e1
      else (p.edges.eraseIdx e2).eraseIdx e1 ++
        [((attack_triple p i e1 e2).1, (attack_triple p i e1 e2).2.1)]) := by
  rw [attack_vertex.eq_def, hinc] at h
  dsimp only at h
  split at h
  · rename_i he
    rw [← h] at hr
    have hs : (add_triangle o tri (attack_triangle p i e1 e2)).1 = SUCCESS :=
      hr
    rw [hs] at he
    exact absurd he (by decide)
  · split at h
    · subst h
      have hb : PSLG_ATTACK_TEMP_EDGES_MALLOC_ERROR = SUCCESS := hr
      exact absurd hb (by decide)
    · split at h
      · subst h
        have hb : PSLG_ATTACK_EDGE_REALLOCATION_ERROR = SUCCESS := hr
        exact absurd hb (by decide)
      · subst h
        rfl

/-- An attack failing at the temp-edge malloc or the edge realloc leaves
the PSLG untouched while the triangle is already appended. -/
theorem attack_error_shape {o : Oracle} {p : PSLG} {tri : Triangulation}
    {i : ℕ} {r : ℕ × PSLG × Triangulation × Oracle}
    (h : attack_vertex o p tri i = r)
    (hr : r.1 = PSLG_ATTACK_TEMP_EDGES_MALLOC_ERROR ∨
      r.1 = PSLG_ATTACK_EDGE_REALLOCATION_ERROR) :
    r.2.1 = p ∧ ∃ f1 f2 : ℕ, incident_list p.edges i = [f1, f2] ∧
      r.2.2.1 = tri ++ [attack_triangle p i f1 f2] := by
  rcases hI : incident_list p.edges i with _ | ⟨e1, _ | ⟨e2, _ | ⟨e3, L⟩⟩⟩
  · rw [attack_vertex.eq_def, hI] at h
    dsimp only at h
    subst h
    rcases hr with hb | hb
    · exact absurd (show NOOP = PSLG_ATTACK_TEMP_EDGES_MALLOC_ERROR from hb)
        (by decide)
    · exact absurd (show NOOP = PSLG_ATTACK_EDGE_REALLOCATION_ERROR from hb)
        (by decide)
  · rw [attack_vertex.eq_def, hI] at h
    dsimp only at h
    subst h
    rcases hr with hb | hb
    · exact absurd (show NOOP = PSLG_ATTACK_TEMP_EDGES_MALLOC_ERROR from hb)
        (by decide)
    · exact absurd (show NOOP = PSLG_ATTACK_EDGE_REALLOCATION_ERROR from hb)
        (by decide)
  · rw [attack_vertex.eq_def, hI] at h
    dsimp only at h
    split at h
    · rename_i he
      rw [← h] at hr
      have hr2 : (add_triangle o tri (attack_triangle p i e1 e2)).1 =
          PSLG_ATTACK_TEMP_EDGES_MALLOC_ERROR ∨
          (add_triangle o tri (attack_triangle p i e1 e2)).1 =
          PSLG_ATTACK_EDGE_REALLOCATION_ERROR := hr
      have hst : (add_triangle o tri (attack_triangle p i e1 e2)).1
            = SUCCESS ∨
          (add_triangle o tri (attack_triangle p i e1 e2)).1
            = ADDING_TRI_REALLOC_FAILURE := add_triangle_status rfl
      rcases hst with hs | hs
      · rw [hs] at he
        exact absurd he (by decide)
      · rw [hs] at hr2
        rcases hr2 with hb | hb <;> exact absurd hb (by decide)
    · rename_i he
      have he2 : IS_AN_ERROR (add_triangle o tri
          (attack_triangle p i e1 e2)).1 = false := by
        revert he
        cases IS_AN_ERROR (add_triangle o tri (attack_triangle p i e1 e2)).1
          <;> simp
      split at h
      · subst h
        exact ⟨rfl, e1, e2, rfl, add_triangle_ok rfl he2⟩
      · split at h
        · subst h
          exact ⟨rfl, e1, e2, rfl, add_triangle_ok rfl he2⟩
        · subst h
          have hb : SUCCESS = PSLG_ATTACK_TEMP_EDGES_MALLOC_ERROR ∨
              SUCCESS = PSLG_ATTACK_EDGE_REALLOCATION_ERROR := hr
          rcases hb with hb | hb <;> exact absurd hb (by decide)
  · rw [attack_vertex.eq_def, hI] at h
    dsimp only at h
    subst h
    rcases hr with hb | hb
    · exact absurd (show NOOP = PSLG_ATTACK_TEMP_EDGES_MALLOC_ERROR from hb)
        (by decide)
    · exact absurd (show NOOP = PSLG_ATTACK_EDGE_REALLOCATION_ERROR from hb)
        (by decide)

/-- In-range endpoints read through getD are below the vertex count. -/
theorem getD_endpoint_lt {p : PSLG} (hp : edgesInBounds p) {i : ℕ}
    (hi : i < p.edges.length) :
    (p.edges.getD i (0, 0)).1 < p.vertices.length ∧
      (p.edges.getD i (0, 0)).2 < p.vertices.length := by
  have hmem : p.edges.getD i (0, 0) ∈ p.edges := by
    rw [List.getD_eq_getElem _ _ hi]
    exact List.getElem_mem hi
  exact hp _ hmem

/-- A successful attack removes two edges and adds the closing edge only
when absent: edge count change is -2 or -1; triangle count grows by 1. -/
theorem attack_success_counts {o : Oracle} {p : PSLG} {tri : Triangulation}
    {i e1 e2 : ℕ} {r : ℕ × PSLG × Triangulation × Oracle}
    (hinc : incident_list p.edges i = [e1, e2])
    (h : attack_vertex o p tri i = r) (hr : r.1 = SUCCESS) :
    r.2.2.1.length = tri.length + 1 ∧
      r.2.1.edges.length +
        (if edge_between p.edges (attack_triple p i e1 e2).1
          (attack_triple p i e1 e2).2.1 then 2 else 1) = p.edges.length := by
  obtain ⟨h12, h2len⟩ := incident_list_two hinc
  constructor
  · rw [attack_success_triangulation hinc h hr]
    simp only [List.length_append, List.length_cons, List.length_nil]
  · rw [attack_success_edges hinc h hr]
    have hlen1 : (p.edges.eraseIdx e2).length = p.edges.length - 1 :=
      List.length_eraseIdx_of_lt h2len
    have hlt1 : e1 < (p.edges.eraseIdx e2).length := by omega
    have hlen2 : ((p.edges.eraseIdx e2).eraseIdx e1).length =
        p.edges.length - 2 := by
      rw [List.length_eraseIdx_of_lt hlt1, hlen1]
      omega
    by_cases hex : edge_between p.edges (attack_triple p i e1 e2).1
        (attack_triple p i e1 e2).2.1 = true
    · rw [if_pos hex, if_pos hex]
      omega
    · rw [if_neg hex, if_neg hex]
      simp only [List.length_append, List.length_cons, List.length_nil]
      omega

/-- Any attack outcome preserves the index-validity invariant. -/
theorem attack_vertex_inbounds {o : Oracle} {p : PSLG} {tri : Triangulation}
    {i : ℕ} {r : ℕ × PSLG × Triangulation × Oracle}
    (h : attack_vertex o p tri i = r) (hp : edgesInBounds p) :
    edgesInBounds r.2.1 := by
  rcases hI : incident_list p.edges i with _ | ⟨e1, _ | ⟨e2, _ | ⟨e3, L⟩⟩⟩
  · rw [attack_vertex.eq_def, hI] at h
    dsimp only at h
    subst h
    exact hp
  · rw [attack_vertex.eq_def, hI] at h
    dsimp only at h
    subst h
    exact hp
  · rw [attack_vertex.eq_def, hI] at h
    dsimp only at h
    split at h
    · subst h
      exact hp
    · split at h
      · subst h
        exact hp
      · split at h
        · subst h
          exact hp
        · subst h
          intro e he
          show e.1 < p.vertices.length ∧ e.2 < p.vertices.length
          obtain ⟨hA, hB⟩ := incident_list_two hI
          by_cases hex : edge_between p.edges (attack_triple p i e1 e2).1
              (attack_triple p i e1 e2).2.1 = true
          · rw [if_pos hex] at he
            exact hp e (List.eraseIdx_subset _ _ (List.eraseIdx_subset _ _ he))
          · rw [if_neg hex] at he
            rcases List.mem_append.1 he with he2 | he2
            · exact hp e
                (List.eraseIdx_subset _ _ (List.eraseIdx_subset _ _ he2))
            · have he3 : e = ((attack_triple p i e1 e2).1,
                  (attack_triple p i e1 e2).2.1) := by
                simpa using he2
              subst he3
              obtain ⟨hb1, hb2⟩ := getD_endpoint_lt hp (by omega : e1 < p.edges.length)
              obtain ⟨hc1, hc2⟩ := getD_endpoint_lt hp hB
              constructor
              · show (attack_triple p i e1 e2).1 < p.vertices.length
                unfold attack_triple
                dsimp only
                by_cases hc : (p.edges.getD e1 (0, 0)).1 = i
                · rw [if_pos hc]
                  exact hb2
                · rw [if_neg hc]
                  exact hb1
              · show (attack_triple p i e1 e2).2.1 < p.vertices.length
                unfold attack_triple
                dsimp only
                by_cases hc : (p.edges.getD e2 (0, 0)).1 = i
                · rw [if_pos hc]
                  exact hc2
                · rw [if_neg hc]
                  exact hc1
  · rw [attack_vertex.eq_def, hI] at h
    dsimp only at h
    subst h
    exact hp

/-- Modelled from the spec, section 4.B step 1, for comparison with the
source: identical to intersecting_segments except that in the branch where
segment [c,d] is a point the y parameter uses the denominator b.y - a.y
(the y-difference of the non-degenerate segment), which is what the
specification describes; the source instead computes b.x - a.y. -/
def intersecting_segments_specfix (a b c d : Vec3) : Option Vec3 :=
  if |a.x - b.x| < EPSILON ∧ |a.y - b.y| < EPSILON ∧
      |c.x - d.x| < EPSILON ∧ |c.y - d.y| < EPSILON then
    none
  else if |a.x - b.x| < EPSILON ∧ |a.y - b.y| < EPSILON then
    let tx0 := a.x - c.x
    let ty0 := a.y - c.y
    let denomx := d.x - c.x
    let denomy := d.y - c.y
    if |denomx| < EPSILON then none
    else if |denomy| < EPSILON then none
    else
      let tx := tx0 / denomx
      let ty := ty0 / denomy
      if tx < 0 ∨ tx > 1 then none
      else if ty < 0 ∨ ty > 1 then none
      else if |tx - ty| < EPSILON then some (lerp_vec3 c d ((tx + ty) / 2))
      else none
  else if |c.x - d.x| < EPSILON ∧ |c.y - d.y| < EPSILON then
    let tx0 := c.x - a.x
    let ty0 := c.y - a.y
    let denomx := b.x - a.x
    let denomy := b.y - a.y -- the spec reading of source line 1831
    if |denomx| < EPSILON then none
    else if |denomy| < EPSILON then none
    else
      let tx := tx0 / denomx
      let ty := ty0 / denomy
      if tx < 0 ∨ tx > 1 then none
      else if ty < 0 ∨ ty > 1 then none
      else if |tx - ty| < EPSILON then some (lerp_vec3 a b ((tx + ty) / 2))
      else none
  else
    let denom := (a.x - b.x) * (c.y - d.y) - (a.y - b.y) * (c.x - d.x)
    if |denom| < EPSILON then none
    else
      let t := ((a.x - c.x) * (c.y - d.y) - (a.y - c.y) * (c.x - d.x)) / denom
      let u := -((a.x - b.x) * (a.y - c.y) - (a.y - b.y) * (a.x - c.x)) / denom
      if t < 0 ∨ t > 1 then none
      else if u < 0 ∨ u > 1 then none
      else
        let v1 := lerp_vec3 a b t
        let v2 := lerp_vec3 c d u
        if |v1.z - v2.z| < EPSILON then some (lerp_vec3 v1 v2 (1 / 2))
        else none

/-! ### Concrete invariant facts -/

/-- The T-junction PSLG satisfies all four data-model invariants; in
particular its two edges do not cross in their interiors (they meet at
(1,0,0), which is an endpoint of the second edge). -/
theorem pslgT_invariants : invariants pslgT := by
  refine ⟨?_, ?_, ?_, ?_⟩
  · unfold edgesInBounds
    decide
  · unfold verticesDistinct
    decide
  · unfold edgesDistinctPos
    decide
  · intro j hj i hij
    have hj2 : j < 2 := hj
    interval_cases j
    · omega
    · have hi0 : i = 0 := by omega
      subst hi0
      show ¬segsCrossInterior ⟨0, 0, 0⟩ ⟨2, 0, 0⟩ ⟨1, 0, 0⟩ ⟨1, 1, 0⟩
      rintro ⟨t, u, ht0, ht1, hu0, hu1, heq⟩
      have hy := congrArg Vec3.y heq
      simp only [lerp_vec3, add_vec3, multiply_vec3, subtract_vec3] at hy
      norm_num at hy
      linarith

/-- The triangle PSLG satisfies all four data-model invariants. -/
theorem pslgTri_invariants : invariants pslgTri := by
  refine ⟨?_, ?_, ?_, ?_⟩
  · unfold edgesInBounds
    decide
  · unfold verticesDistinct
    decide
  · unfold edgesDistinctPos
    decide
  · intro j hj i hij
    have hj2 : j < 3 := hj
    interval_cases j
    · omega
    · have hi0 : i = 0 := by omega
      subst hi0
      show ¬segsCrossInterior ⟨0, 0, 0⟩ ⟨1, 0, 0⟩ ⟨1, 0, 0⟩ ⟨0, 1, 0⟩
      rintro ⟨t, u, ht0, ht1, hu0, hu1, heq⟩
      have hy := congrArg Vec3.y heq
      simp only [lerp_vec3, add_vec3, multiply_vec3, subtract_vec3] at hy
      norm_num at hy
      linarith
    · have hi2 : i < 2 := hij
      interval_cases i
      · show ¬segsCrossInterior ⟨0, 0, 0⟩ ⟨1, 0, 0⟩ ⟨0, 1, 0⟩ ⟨0, 0, 0⟩
        rintro ⟨t, u, ht0, ht1, hu0, hu1, heq⟩
        have hx := congrArg Vec3.x heq
        simp only [lerp_vec3, add_vec3, multiply_vec3, subtract_vec3] at hx
        norm_num at hx
        linarith
      · show ¬segsCrossInterior ⟨1, 0, 0⟩ ⟨0, 1, 0⟩ ⟨0, 1, 0⟩ ⟨0, 0, 0⟩
        rintro ⟨t, u, ht0, ht1, hu0, hu1, heq⟩
        have hx := congrArg Vec3.x heq
        simp only [lerp_vec3, add_vec3, multiply_vec3, subtract_vec3] at hx
        norm_num at hx
        linarith

/-- After splitting the T-junction the invariants are broken: the
appended intersection point (1,0,0) duplicates vertex 2. -/
theorem pslgT_split_not_invariants :
    ¬invariants (splitPSLG [] pslgT 0 1).2.1 := by
  intro hinv
  have h := hinv.2.1 4 (by decide) 2 (by decide)
  exact absurd h (by decide)

/-! ### Claim theorems -/

/-- C1 (amended): of the four PSLG-mutating operations, dedup_vertex and
dedup_edge leave an invariant-satisfying PSLG completely unchanged (hence
preserve every invariant), and split and attack preserve the
index-validity invariant (every index stored in E is a valid position in
V).  The full bundle is not preserved by split (see the counterexample:
a T-junction split appends a vertex equal within ε to an existing one). -/
theorem mutation_ops_invariant_status (p : PSLG) (h : invariants p) :
    (∀ o : Oracle, dedup_pslg_vertex o p = (NOOP, p, o)) ∧
    (∀ o : Oracle, dedup_pslg_edge o p = (NOOP, p, o)) ∧
    (∀ (o : Oracle) (e1 e2 : ℕ), edgesInBounds (splitPSLG o p e1 e2).2.1) ∧
    (∀ (o : Oracle) (t : Triangulation) (i : ℕ),
      edgesInBounds (attack_vertex o p t i).2.1) := by
  obtain ⟨hb, hv, he, hx⟩ := h
  refine ⟨?_, ?_, ?_, ?_⟩
  · intro o
    unfold dedup_pslg_vertex
    rw [dedup_vertex_loop, one_vertex_of_distinct hv o]
    rfl
  · intro o
    unfold dedup_pslg_edge
    rw [dedup_edge_loop, one_edge_of_distinct he o]
    rfl
  · intro o e1 e2
    exact splitPSLG_inbounds rfl hb
  · intro o t i
    exact attack_vertex_inbounds rfl hb

/-- C1 counterexample: the T-junction PSLG satisfies all four invariants,
splitPSLG on its two edges succeeds (the intersection point (1,0,0) is an
endpoint of the second edge but interior to the first), and the resulting
PSLG violates the invariants: the appended vertex equals vertex 2
within ε. -/
theorem split_breaks_vertex_distinctness :
    invariants pslgT ∧ (splitPSLG [] pslgT 0 1).1 = SUCCESS ∧
      ¬invariants (splitPSLG [] pslgT 0 1).2.1 :=
  ⟨pslgT_invariants, by decide, pslgT_split_not_invariants⟩

/-- C1 witness: the invariant triangle PSLG instantiates the amended
theorem; its vertex-dedup pass is a NOOP that returns it unchanged. -/
theorem mutation_ops_invariant_status_witness :
    invariants pslgTri ∧ dedup_pslg_vertex [] pslgTri = (NOOP, pslgTri, [])
    :=
  ⟨pslgTri_invariants,
    (mutation_ops_invariant_status pslgTri pslgTri_invariants).1 []⟩

/-- C2 (amended): the no-op guard of splitPSLG compares vertex indices,
not positions: whenever the two edges share a vertex index, split does
nothing and returns NOOP.  Sharing only a position (equal coordinates at
distinct indices) does not trigger the guard — see the counterexample. -/
theorem split_noop_on_shared_index (o : Oracle) (p : PSLG) (e1 e2 : ℕ)
    (hshare : (p.edges.getD e1 (0, 0)).1 = (p.edges.getD e2 (0, 0)).1 ∨
      (p.edges.getD e1 (0, 0)).1 = (p.edges.getD e2 (0, 0)).2 ∨
      (p.edges.getD e1 (0, 0)).2 = (p.edges.getD e2 (0, 0)).1 ∨
      (p.edges.getD e1 (0, 0)).2 = (p.edges.getD e2 (0, 0)).2) :
    splitPSLG o p e1 e2 = (NOOP, p, o) := by
  rw [splitPSLG.eq_def]
  dsimp only
  rw [if_pos hshare]

/-- C2 counterexample: in pslgShared the two edges share the position
(0,0,0) stored at the distinct indices 0 and 2; split does not no-op: it
returns SUCCESS and mutates the PSLG. -/
theorem split_shared_position_not_noop :
    equal_vec3
      (pslgShared.vertices.getD (pslgShared.edges.getD 0 (0, 0)).1 default)
      (pslgShared.vertices.getD (pslgShared.edges.getD 1 (0, 0)).1 default)
      = true ∧
    (splitPSLG [] pslgShared 0 1).1 = SUCCESS ∧
    (splitPSLG [] pslgShared 0 1).2.1 ≠ pslgShared :=
  ⟨by decide, by decide, by decide⟩

/-- C2 witness: edges 0 and 1 of the triangle PSLG share vertex index 1,
and split is a no-op on them. -/
theorem split_noop_on_shared_index_witness :
    (pslgTri.edges.getD 0 (0, 0)).2 = (pslgTri.edges.getD 1 (0, 0)).1 ∧
    splitPSLG [] pslgTri 0 1 = (NOOP, pslgTri, []) :=
  ⟨by decide, split_noop_on_shared_index [] pslgTri 0 1
    (Or.inr (Or.inr (Or.inl (by decide))))⟩

/-- C3: code bug.  For a = (0,0,0), b = (2,3,0) and the degenerate segment
c = d = (1, 3/2, 0) — the midpoint of [a,b] — the parameter of the point
on [a,b] is 1/2 in the x coordinate and 1/2 in the y coordinate (the
claim's denominator b.y - a.y = 3), so by the claim the intersector must
return true; the source computes the y parameter with denominator
b.x - a.y = 2 (main.c line 1831), obtains 3/4, and returns false.  The
spec-reading variant with denominator b.y - a.y accepts the point. -/
theorem intersector_vertical2_denomy_bug :
    intersecting_segments ⟨0, 0, 0⟩ ⟨2, 3, 0⟩ ⟨1, 3/2, 0⟩ ⟨1, 3/2, 0⟩
      = none ∧
    intersecting_segments_specfix ⟨0, 0, 0⟩ ⟨2, 3, 0⟩ ⟨1, 3/2, 0⟩
      ⟨1, 3/2, 0⟩ = some ⟨1, 3/2, 0⟩ ∧
    ((1 : ℚ) - 0) / (2 - 0) = 1 / 2 ∧ ((3 / 2 : ℚ) - 0) / (3 - 0) = 1 / 2
    :=
  ⟨by decide, by decide, by norm_num, by norm_num⟩

/-- C4 (amended): when the incidence scan finds exactly the two edges
e1, e2 at vertex i — normalized so that a is the other endpoint of e1 and
b the other endpoint of e2 (the first two entries of attack_triple) — a
successful attack appends the ordered triple (V[a], V[b], V[i]) carrying
the polygon FaceData unrecomputed.  The claim's order (V[a], V[i], V[b])
is wrong: the attacked vertex comes third, not second (opposite
winding). -/
theorem attack_triangle_order_and_facedata {o : Oracle} {p : PSLG}
    {tri : Triangulation} {i e1 e2 : ℕ}
    {r : ℕ × PSLG × Triangulation × Oracle}
    (hinc : incident_list p.edges i = [e1, e2])
    (h : attack_vertex o p tri i = r) (hr : r.1 = SUCCESS) :
    r.2.2.1 = tri ++
      [⟨(p.vertices.getD (attack_triple p i e1 e2).1 default,
        p.vertices.getD (attack_triple p i e1 e2).2.1 default,
        p.vertices.getD i default), p.poly.fd⟩] := by
  rw [attack_success_triangulation hinc h hr]
  unfold attack_triangle
  dsimp only
  rw [attack_triple_third hinc]

/-- C4 counterexample: attacking vertex 0 of the triangle PSLG emits
((1,0,0), (0,1,0), (0,0,0)), not the claimed (V[a], V[i], V[b]) =
((1,0,0), (0,0,0), (0,1,0)). -/
theorem attack_triangle_not_a_i_b :
    incident_list pslgTri.edges 0 = [0, 2] ∧
    (attack_vertex [] pslgTri [] 0).1 = SUCCESS ∧
    (attack_vertex [] pslgTri [] 0).2.2.1 ≠
      [⟨(pslgTri.vertices.getD (attack_triple pslgTri 0 0 2).1 default,
        pslgTri.vertices.getD 0 default,
        pslgTri.vertices.getD (attack_triple pslgTri 0 0 2).2.1 default),
        pslgTri.poly.fd⟩] :=
  ⟨by decide, by decide, by decide⟩

/-- C4 witness: the amended order holds at the concrete attack on vertex
0 of the triangle PSLG. -/
theorem attack_triangle_order_and_facedata_witness :
    incident_list pslgTri.edges 0 = [0, 2] ∧
    (attack_vertex [] pslgTri [] 0).1 = SUCCESS ∧
    (attack_vertex [] pslgTri [] 0).2.2.1 = [] ++
      [⟨(pslgTri.vertices.getD (attack_triple pslgTri 0 0 2).1 default,
        pslgTri.vertices.getD (attack_triple pslgTri 0 0 2).2.1 default,
        pslgTri.vertices.getD 0 default), pslgTri.poly.fd⟩] :=
  ⟨by decide, by decide,
    attack_triangle_order_and_facedata (by decide) rfl (by decide)⟩

/-- C5: a successful attack on a vertex with incident edges e1, e2 grows
the output triangulation by exactly one triangle, and shrinks the edge
list by exactly 2 when an edge between the two neighbour indices already
existed, by exactly 1 otherwise. -/
theorem attack_success_edge_triangle_counts {o : Oracle} {p : PSLG}
    {tri : Triangulation} {i e1 e2 : ℕ}
    {r : ℕ × PSLG × Triangulation × Oracle}
    (hinc : incident_list p.edges i = [e1, e2])
    (h : attack_vertex o p tri i = r) (hr : r.1 = SUCCESS) :
    r.2.2.1.length = tri.length + 1 ∧
      r.2.1.edges.length +
        (if edge_between p.edges (attack_triple p i e1 e2).1
          (attack_triple p i e1 e2).2.1 then 2 else 1) = p.edges.length :=
  attack_success_counts hinc h hr

/-- C5 witness: attacking vertex 0 of the triangle PSLG (where the closing
edge (1,2) already exists) emits one triangle and drops the edge count
from 3 to 1. -/
theorem attack_success_edge_triangle_counts_witness :
    incident_list pslgTri.edges 0 = [0, 2] ∧
    (attack_vertex [] pslgTri [] 0).1 = SUCCESS ∧
    ((attack_vertex [] pslgTri [] 0).2.2.1.length
        = ([] : Triangulation).length + 1 ∧
      (attack_vertex [] pslgTri [] 0).2.1.edges.length +
        (if edge_between pslgTri.edges (attack_triple pslgTri 0 0 2).1
          (attack_triple pslgTri 0 0 2).2.1 then 2 else 1)
        = pslgTri.edges.length) :=
  ⟨by decide, by decide,
    attack_success_edge_triangle_counts (by decide) rfl (by decide)⟩

/-- C6: whenever splitPSLG returns SUCCESS, the vertex count has grown by
exactly 1 and the edge count by exactly 2. -/
theorem split_success_vertex_edge_counts {o : Oracle} {p : PSLG}
    {e1 e2 : ℕ} {r : ℕ × PSLG × Oracle} (h : splitPSLG o p e1 e2 = r)
    (hr : r.1 = SUCCESS) :
    r.2.1.vertices.length = p.vertices.length + 1 ∧
      r.2.1.edges.length = p.edges.length + 2 :=
  splitPSLG_success_counts h hr

/-- C6 witness: the successful split of pslgShared takes V from 4 to 5
vertices and E from 2 to 4 edges. -/
theorem split_success_vertex_edge_counts_witness :
    (splitPSLG [] pslgShared 0 1).1 = SUCCESS ∧
    ((splitPSLG [] pslgShared 0 1).2.1.vertices.length
        = pslgShared.vertices.length + 1 ∧
      (splitPSLG [] pslgShared 0 1).2.1.edges.length
        = pslgShared.edges.length + 2) :=
  ⟨by decide, split_success_vertex_edge_counts rfl (by decide)⟩

/-- C7: dedup is idempotent.  If dedup_pslg completes without error, then
running it again on the result (under any allocation oracle) returns
SUCCESS with the state literally unchanged — in particular the vertex and
edge multisets are identical to those of the first run. -/
theorem dedup_idempotent {o : Oracle} {p : PSLG} {r : ℕ × PSLG × Oracle}
    (h : dedup_pslg o p = r) (herr : IS_AN_ERROR r.1 = false) :
    ∀ o2 : Oracle, dedup_pslg o2 r.2.1 = (SUCCESS, r.2.1, o2) := by
  obtain ⟨hs, hv, he⟩ := dedup_pslg_post h herr
  intro o2
  exact dedup_pslg_of_clean hv he o2

/-- C7 witness: dedup of pslgShared (which has a duplicate vertex)
completes without error, and a second dedup leaves its result fixed. -/
theorem dedup_idempotent_witness :
    IS_AN_ERROR (dedup_pslg [] pslgShared).1 = false ∧
    dedup_pslg [] (dedup_pslg [] pslgShared).2.1 =
      (SUCCESS, (dedup_pslg [] pslgShared).2.1, []) :=
  ⟨by decide, dedup_idempotent rfl (by decide) []⟩

/-- C8 (amended): allocation failures in split and dedup do propagate
upward unchanged through the fixpoint drivers (conjuncts 2 to 5), but the
PSLG left behind by a vertex-dedup realloc failure is NOT invariant-clean:
the vertex array has already been shifted down over the removed slot with
the last entry duplicated, while the count and the edge endpoints still
refer to the pre-shift layout (conjunct 1; see also the
counterexample). -/
theorem alloc_failure_propagation_and_shift :
    (∀ (p : PSLG) (v1 v2 : ℕ) (ot : Oracle), v1 < v2 →
      equal_vec3 (p.vertices.getD v1 default)
        (p.vertices.getD v2 default) = true →
      REALIGN p.vertices.length (p.vertices.length - 1) = true →
      dedup_pslg_a_vertex (false :: ot) p v1 v2 =
        (DEDUP_PSLG_VERTEX_REALLOC_ERROR,
          { p with vertices := p.vertices.take v2 ++ p.vertices.drop (v2 + 1)
              ++ [p.vertices.getLastD default] }, ot)) ∧
    (∀ (o : Oracle) (p : PSLG),
      IS_AN_ERROR (dedup_pslg_one_vertex o p).1 = true →
      dedup_pslg_vertex o p = dedup_pslg_one_vertex o p) ∧
    (∀ (o : Oracle) (p : PSLG),
      IS_AN_ERROR (dedup_pslg_vertex o p).1 = true →
      dedup_pslg o p = dedup_pslg_vertex o p) ∧
    (∀ (f : ℕ) (o : Oracle) (p : PSLG),
      IS_AN_ERROR (remove_single_edge o p).1 = true →
      split_entirely (f + 1) o p = remove_single_edge o p) ∧
    (∀ (f : ℕ) (o : Oracle) (p : PSLG),
      (remove_single_edge o p).1 = SUCCESS →
      IS_AN_ERROR (dedup_pslg (remove_single_edge o p).2.2
        (remove_single_edge o p).2.1).1 = true →
      split_entirely (f + 1) o p =
        dedup_pslg (remove_single_edge o p).2.2
          (remove_single_edge o p).2.1) :=
  ⟨fun _ _ _ _ h1 h2 h3 => a_vertex_realloc_failure h1 h2 h3,
    fun _ _ he => dedup_vertex_driver_error he,
    fun _ _ he => dedup_error_prop he,
    fun _ _ _ he => split_entirely_error_prop1 he,
    fun _ _ _ h1 h2 => split_entirely_error_prop2 h1 h2⟩

/-- C8 counterexample: on the 17-vertex PSLG with a duplicate pair, a
failing shrink realloc during vertex dedup surfaces the dedup vertex
realloc error, and the PSLG left behind has its vertex array shifted
(different from the input) while the edges are untouched, violating the
data-model invariants (two equal vertices remain at slots 15 and 16). -/
theorem dedup_realloc_failure_breaks_invariants :
    (dedup_pslg [false] pslg17).1 = DEDUP_PSLG_VERTEX_REALLOC_ERROR ∧
    (dedup_pslg [false] pslg17).2.1.edges = pslg17.edges ∧
    (dedup_pslg [false] pslg17).2.1.vertices ≠ pslg17.vertices ∧
    ¬invariants (dedup_pslg [false] pslg17).2.1 := by
  refine ⟨by decide, by decide, by decide, ?_⟩
  intro hinv
  have h := hinv.2.1 16 (by decide) 15 (by decide)
  exact absurd h (by decide)

/-- C8 witness: the shift shape and the propagation, instantiated on the
17-vertex PSLG with the realloc refused. -/
theorem alloc_failure_propagation_and_shift_witness :
    (0 : ℕ) < 1 ∧
    equal_vec3 (pslg17.vertices.getD 0 default)
      (pslg17.vertices.getD 1 default) = true ∧
    REALIGN pslg17.vertices.length (pslg17.vertices.length - 1) = true ∧
    dedup_pslg_a_vertex [false] pslg17 0 1 =
      (DEDUP_PSLG_VERTEX_REALLOC_ERROR,
        { pslg17 with vertices := pslg17.vertices.take 1 ++
            pslg17.vertices.drop 2 ++ [pslg17.vertices.getLastD default] },
        []) ∧
    IS_AN_ERROR (dedup_pslg_vertex [false] pslg17).1 = true ∧
    dedup_pslg [false] pslg17 = dedup_pslg_vertex [false] pslg17 :=
  ⟨by decide, by decide, by decide,
    alloc_failure_propagation_and_shift.1 pslg17 0 1 [] (by decide)
      (by decide) (by decide),
    by decide,
    alloc_failure_propagation_and_shift.2.2.1 [false] pslg17 (by decide)⟩

/-- C9: a successful attack leaves the vertex array (and so the vertex
count) completely unchanged; the attacked vertex merely becomes
degree-0. -/
theorem attack_preserves_vertex_array {o : Oracle} {p : PSLG}
    {tri : Triangulation} {i : ℕ} {r : ℕ × PSLG × Triangulation × Oracle}
    (h : attack_vertex o p tri i = r) (_hr : r.1 = SUCCESS) :
    r.2.1.vertices = p.vertices :=
  attack_vertex_vertices h

/-- C9 witness: the successful attack on vertex 0 of the triangle PSLG
keeps its three vertices. -/
theorem attack_preserves_vertex_array_witness :
    (attack_vertex [] pslgTri [] 0).1 = SUCCESS ∧
    (attack_vertex [] pslgTri [] 0).2.1.vertices = pslgTri.vertices :=
  ⟨by decide, attack_preserves_vertex_array rfl (by decide)⟩

/-- C10: attack is not atomic on error: when it fails at the temp edge
malloc or at the edge realloc, the returned status is that fatal code,
the PSLG (its edge list included) is unchanged, and the new triangle has
already been appended to the output Triangulation. -/
theorem attack_error_triangle_already_added {o : Oracle} {p : PSLG}
    {tri : Triangulation} {i : ℕ} {r : ℕ × PSLG × Triangulation × Oracle}
    (h : attack_vertex o p tri i = r)
    (hr : r.1 = PSLG_ATTACK_TEMP_EDGES_MALLOC_ERROR ∨
      r.1 = PSLG_ATTACK_EDGE_REALLOCATION_ERROR) :
    r.2.1 = p ∧ ∃ f1 f2 : ℕ, incident_list p.edges i = [f1, f2] ∧
      r.2.2.1 = tri ++ [attack_triangle p i f1 f2] :=
  attack_error_shape h hr

/-- C10 witness: with the temp-edge malloc refused, the attack on vertex 0
of the triangle PSLG fails fatally with the triangle already emitted and
the PSLG untouched. -/
theorem attack_error_triangle_already_added_witness :
    ((attack_vertex [true, false] pslgTri [] 0).1
        = PSLG_ATTACK_TEMP_EDGES_MALLOC_ERROR ∨
      (attack_vertex [true, false] pslgTri [] 0).1
        = PSLG_ATTACK_EDGE_REALLOCATION_ERROR) ∧
    ((attack_vertex [true, false] pslgTri [] 0).2.1 = pslgTri ∧
      ∃ f1 f2 : ℕ, incident_list pslgTri.edges 0 = [f1, f2] ∧
        (attack_vertex [true, false] pslgTri [] 0).2.2.1 =
          [] ++ [attack_triangle pslgTri 0 f1 f2]) :=
  ⟨Or.inl (by decide),
    attack_error_triangle_already_added rfl (Or.inl (by decide))⟩

end Uniformity
